import Mathlib

/-!
# yins: the ECEF mechanization driver `nav_ins_ecef` and the field reader `str2num`

A shallow embedding of `src/main.c` (with the types of `src/ins.h`).

Conventions of the embedding.

* `double` is an arbitrary field `R` with exact arithmetic; rounding is outside the model.
  The theorems hold for every such `R`; concrete runs are evaluated over `ℚ`.
* `int` and `time_t` are `Int`. Signed overflow is undefined in C and outside the model:
  in `nav_ins_ecef` the loop index stays in `[|N| - 1, n)` inside the body
  (`mem_main_indices`), so its last increment yields at most `n - 1 + |N|`; in `str2num`
  the decrement `--n` stays in range for `n > INT_MIN`, and `(int)strlen(s)` is
  `strlen(s)` for strings shorter than `2^31`.
* `imu->data` is the memory behind the pointer, a total map from index to sample; every
  access `imu->data[idx]` is logged in the trace, so that an access outside `[0, n)` is
  visible as an event instead of being given a meaning.
* The library routines declared in `ins.h` whose bodies are not part of `main.c` are the
  fields of `Ins`. A routine is a function of the values behind its `const` pointers and
  in/out pointers, and yields the new values behind its non-`const` pointers.
* Automatic variables that the C code does not initialise start from the arbitrary values
  of `Stack`.
* Calls, buffer stores and output lines are logged, in program order, in `Frame.trace`.
-/

namespace Yins

set_option linter.unusedSectionVars false

/-! ## Types of `ins.h` -/

/-- The 3D vector `v3_t`. -/
structure v3_t (R : Type) where
  i : R
  j : R
  k : R
deriving DecidableEq

/-- The quaternion `quat_t`. -/
structure quat_t (R : Type) where
  q0 : R
  q1 : R
  q2 : R
  q3 : R
deriving DecidableEq

/-- The 3x3 matrix `m3_t`. -/
structure m3_t (R : Type) where
  m11 : R
  m12 : R
  m13 : R
  m21 : R
  m22 : R
  m23 : R
  m31 : R
  m32 : R
  m33 : R
deriving DecidableEq

/-- The time struct `gtime_t`: `time` is the `time_t` whole-second part, `sec` the
fraction of second under 1 s. -/
structure gtime_t (R : Type) where
  time : Int
  sec : R
deriving DecidableEq

/-- One IMU observation `imud_t`. -/
structure imud_t (R : Type) where
  time : gtime_t R
  gryo : v3_t R
  accel : v3_t R
deriving DecidableEq

/-- The IMU dataset `imu_t`: the sensor-error-model parameters, the counters `n` and
`nmax`, and the memory behind `data`. -/
structure imu_t (R : Type) where
  arw : v3_t R
  arrw : v3_t R
  vrw : v3_t R
  vrrw : v3_t R
  Ta : v3_t R
  Tg : v3_t R
  initr : v3_t R
  initQr : v3_t R
  initv : v3_t R
  initQv : v3_t R
  inita : v3_t R
  initQa : v3_t R
  initQgb : v3_t R
  initQab : v3_t R
  lever_arm : v3_t R
  n : Int
  nmax : Int
  data : Int → imud_t R

/-- The routines of `ins.h` that `nav_ins_ecef` calls; their bodies are not in `main.c`.
`nav_equations_ecef dt dtheta dv r v q` yields the new `(r, v, q)`;
`multisample dtheta_list dv_list N` yields `(dtheta, dv)`;
`ecef2ned pos vel att` yields the new `(pos, vel, att)`. -/
structure Ins (R : Type) where
  nav_equations_ecef : R → v3_t R → v3_t R → v3_t R → v3_t R → quat_t R →
    v3_t R × v3_t R × quat_t R
  multisample : List (v3_t R) → List (v3_t R) → Int → v3_t R × v3_t R
  quat2dcm : quat_t R → m3_t R
  ecef2ned : v3_t R → v3_t R → m3_t R → v3_t R × v3_t R × m3_t R
  m3_transpose : m3_t R → m3_t R
  dcm2euler : m3_t R → v3_t R
  quat2euler : quat_t R → v3_t R

/-! ## Trace and frame of `nav_ins_ecef` -/

/-- What `nav_ins_ecef` does that is visible outside its locals.
* `read idx`: a statement reads `imu->data[idx]` (outside the window copy);
* `load j idx`: `dtheta_list[j] = imu->data[idx].gryo; dv_list[j] = imu->data[idx].accel`;
* `multisample dl vl N`: the call, with the contents of the two 5-element buffers;
* `nav_equations_ecef dt dtheta dv r v q`: the call, with the values behind its pointers;
* `record sec a b c`: one output line, the arguments of its four `fprintf` calls. -/
inductive Event (R : Type) where
  | read (idx : Int)
  | load (j : Nat) (idx : Int)
  | multisample (dtheta_list dv_list : List (v3_t R)) (N : Int)
  | nav_equations_ecef (dt : R) (dtheta dv r v : v3_t R) (q : quat_t R)
  | record (sec : R) (a b c : v3_t R)
deriving DecidableEq

/-- Initial (indeterminate) values of the automatic variables that are declared without
an initialiser. Only cells `0..4` of the two buffers exist. -/
structure Stack (R : Type) where
  euler : v3_t R
  dtheta_list : Nat → v3_t R
  dv_list : Nat → v3_t R
  dtheta : v3_t R
  dv : v3_t R
  dcm : m3_t R
  pos : v3_t R
  veb_n : v3_t R
  Enb : v3_t R

/-- The parameters `r`, `v`, `q` (passed by value, so local), the automatic variables of
`nav_ins_ecef`, and the trace so far. -/
structure Frame (R : Type) where
  r : v3_t R
  v : v3_t R
  q : quat_t R
  euler : v3_t R
  dtheta_list : List (v3_t R)
  dv_list : List (v3_t R)
  dtheta : v3_t R
  dv : v3_t R
  dcm : m3_t R
  pos : v3_t R
  veb_n : v3_t R
  Enb : v3_t R
  trace : List (Event R)

variable {R : Type} [Field R]

/-- The macro `RAD2DEG 57.2957795130823`. -/
def RAD2DEG : R := 572957795130823 / 10000000000000

/-- The initialiser `dt = imu->data[1].time.sec - imu->data[0].time.sec`. -/
def nav_dt (imu : imu_t R) : R :=
  (imu.data 1).time.sec - (imu.data 0).time.sec

/-- The frame on entry to the first loop: parameters, indeterminate locals, and the two
reads made by the initialiser of `dt`. -/
def entry_frame (r v : v3_t R) (q : quat_t R) (stack : Stack R) : Frame R :=
  { r := r, v := v, q := q, euler := stack.euler
    dtheta_list := [stack.dtheta_list 0, stack.dtheta_list 1, stack.dtheta_list 2,
      stack.dtheta_list 3, stack.dtheta_list 4]
    dv_list := [stack.dv_list 0, stack.dv_list 1, stack.dv_list 2, stack.dv_list 3,
      stack.dv_list 4]
    dtheta := stack.dtheta, dv := stack.dv, dcm := stack.dcm, pos := stack.pos
    veb_n := stack.veb_n, Enb := stack.Enb
    trace := [Event.read 1, Event.read 0] }

/-- Body of the loop `for (int i = 0; i < abs(N) - 1; ++i)` (lines 75-84): one
single-sample step on sample `i` and its output line. -/
def prelude_step (ins : Ins R) (imu : imu_t R) (dt : R) (s : Frame R) (i : Nat) : Frame R :=
  let st := ins.nav_equations_ecef dt (imu.data i).gryo (imu.data i).accel s.r s.v s.q
  let s1 : Frame R :=
    { s with
      r := st.1, v := st.2.1, q := st.2.2
      trace := s.trace ++
        [Event.read i,
         Event.nav_equations_ecef dt (imu.data i).gryo (imu.data i).accel s.r s.v s.q] }
  let s2 : Frame R := { s1 with euler := ins.quat2euler s1.q }
  { s2 with
    trace := s2.trace ++
      [Event.read i, Event.record (imu.data i).time.sec s2.r s2.v s2.euler] }

/-- Body of the loop `for (int j = 0; j < abs(N); j++)` (lines 88-91). A store at a
position outside the 5-element buffers changes nothing here and shows as `load j _`
with `5 ≤ j` in the trace. -/
def window_step (imu : imu_t R) (start_ind : Int) (s : Frame R) (j : Nat) : Frame R :=
  { s with
    dtheta_list := s.dtheta_list.set j (imu.data (start_ind + j)).gryo
    dv_list := s.dv_list.set j (imu.data (start_ind + j)).accel
    trace := s.trace ++ [Event.load j (start_ind + j)] }

/-- Body of the loop `for (int i = abs(N) - 1; i < imu->n; i += nSample)` (lines 87-105). -/
def step_ecef (ins : Ins R) (imu : imu_t R) (N : Int) (dt : R) (nSample : Int)
    (s : Frame R) (i : Int) : Frame R :=
  let start_ind : Int := i - N.natAbs + 1
  let s1 := (List.range N.natAbs).foldl (window_step imu start_ind) s
  let ms := ins.multisample s1.dtheta_list s1.dv_list N
  let s2 : Frame R :=
    { s1 with
      dtheta := ms.1, dv := ms.2
      trace := s1.trace ++ [Event.multisample s1.dtheta_list s1.dv_list N] }
  let st := ins.nav_equations_ecef (dt * (nSample : R)) s2.dtheta s2.dv s2.r s2.v s2.q
  let s3 : Frame R :=
    { s2 with
      r := st.1, v := st.2.1, q := st.2.2
      trace := s2.trace ++
        [Event.nav_equations_ecef (dt * (nSample : R)) s2.dtheta s2.dv s2.r s2.v s2.q] }
  let s4 : Frame R := { s3 with dcm := ins.quat2dcm s3.q, pos := s3.r, veb_n := s3.v }
  let ned := ins.ecef2ned s4.pos s4.veb_n s4.dcm
  let s5 : Frame R := { s4 with pos := ned.1, veb_n := ned.2.1, dcm := ned.2.2 }
  let s6 : Frame R := { s5 with dcm := ins.m3_transpose s5.dcm }
  let s7 : Frame R := { s6 with Enb := ins.dcm2euler s6.dcm }
  let s8 : Frame R := { s7 with euler := ins.quat2euler s7.q }
  { s8 with
    trace := s8.trace ++
      [Event.read i,
       Event.record (imu.data i).time.sec
         ⟨s7.pos.i * RAD2DEG, s7.pos.j * RAD2DEG, s7.pos.k⟩
         s7.veb_n
         ⟨s7.Enb.i * RAD2DEG, s7.Enb.j * RAD2DEG, s7.Enb.k * RAD2DEG⟩] }

/-- The loop `for (int i = abs(N) - 1; i < imu->n; i += nSample)` run for at most `fuel`
tests of its condition, from index `i`. The flag is `true` when the loop has exited and
`false` when the budget ran out first (the frame is then the one reached so far). -/
def main_loop (ins : Ins R) (imu : imu_t R) (N : Int) (dt : R) (nSample : Int) :
    Nat → Int → Frame R → Bool × Frame R
  | 0, _, s => (false, s)
  | fuel + 1, i, s =>
    if i < imu.n then
      main_loop ins imu N dt nSample fuel (i + nSample) (step_ecef ins imu N dt nSample s i)
    else (true, s)

/-- The frame after the first loop (lines 74-84), which runs only when `N < 0`. -/
def prelude_loop (ins : Ins R) (imu : imu_t R) (N : Int) (s : Frame R) : Frame R :=
  if N < 0 then (List.range (N.natAbs - 1)).foldl (prelude_step ins imu (nav_dt imu)) s
  else s

/-- The assignment `int nSample = N < 0 ? 1 : N`. -/
def nSample_of (N : Int) : Int := if N < 0 then 1 else N

/-- The function `nav_ins_ecef(imu, N, r, v, q)`, with a budget of `fuel` tests of the
condition of its second loop. -/
def nav_ins_ecef (ins : Ins R) (imu : imu_t R) (N : Int) (r v : v3_t R) (q : quat_t R)
    (stack : Stack R) (fuel : Nat) : Bool × Frame R :=
  main_loop ins imu N (nav_dt imu) (nSample_of N) fuel ((N.natAbs : Int) - 1)
    (prelude_loop ins imu N (entry_frame r v q stack))

/-! ## Projections of a trace -/

/-- Is the event a call of `nav_equations_ecef`? -/
def Event.is_nav : Event R → Bool
  | .nav_equations_ecef _ _ _ _ _ _ => true
  | _ => false

/-- Is the event an output line? -/
def Event.is_record : Event R → Bool
  | .record _ _ _ _ => true
  | _ => false

/-- The calls of `nav_equations_ecef`, in call order. -/
def nav_calls (tr : List (Event R)) : List (Event R) := tr.filter Event.is_nav

/-- The output lines, in output order. -/
def records (tr : List (Event R)) : List (Event R) := tr.filter Event.is_record

/-- The calls of `nav_equations_ecef` and the output lines, in program order. -/
def nav_records (tr : List (Event R)) : List (Event R) :=
  tr.filter (fun e => e.is_nav || e.is_record)

/-- The interval `(dt, dtheta, dv)` of a call of `nav_equations_ecef`. -/
def Event.nav_arg : Event R → Option (R × v3_t R × v3_t R)
  | .nav_equations_ecef dt dtheta dv _ _ _ => some (dt, dtheta, dv)
  | _ => none

/-- The arguments `(dtheta_list, dv_list, N)` of a call of `multisample`. -/
def Event.ms_arg : Event R → Option (List (v3_t R) × List (v3_t R) × Int)
  | .multisample dl vl N => some (dl, vl, N)
  | _ => none

/-- The store `(j, idx)` of a step of the window copy. -/
def Event.load_arg : Event R → Option (Nat × Int)
  | .load j idx => some (j, idx)
  | _ => none

/-- The index `idx` of an access to `imu->data[idx]`. -/
def Event.index : Event R → Option Int
  | .read idx => some idx
  | .load _ idx => some idx
  | _ => none

/-- The interval `(dt, dtheta, dv)` of each call of `nav_equations_ecef`, in call order. -/
def nav_args (tr : List (Event R)) : List (R × v3_t R × v3_t R) :=
  tr.filterMap Event.nav_arg

/-- The arguments `(dtheta_list, dv_list, N)` of each call of `multisample`, in call order. -/
def ms_calls (tr : List (Event R)) : List (List (v3_t R) × List (v3_t R) × Int) :=
  tr.filterMap Event.ms_arg

/-- The stores `(j, idx)` of the window copy, in program order. -/
def loads (tr : List (Event R)) : List (Nat × Int) :=
  tr.filterMap Event.load_arg

/-- Every index `idx` at which `imu->data[idx]` is accessed, in program order. -/
def accessed (tr : List (Event R)) : List Int :=
  tr.filterMap Event.index

/-- The state `(r, v, q)` that a call of `nav_equations_ecef` yields from the state it
was given. -/
def nav_result (ins : Ins R) : Event R → Option (v3_t R × v3_t R × quat_t R)
  | .nav_equations_ecef dt dtheta dv r v q => some (ins.nav_equations_ecef dt dtheta dv r v q)
  | _ => none

/-! ## Closed forms used in the statements -/

/-- The five cells of `dtheta_list` on entry. -/
def stack_dtheta (stack : Stack R) : List (v3_t R) :=
  [stack.dtheta_list 0, stack.dtheta_list 1, stack.dtheta_list 2, stack.dtheta_list 3,
    stack.dtheta_list 4]

/-- The five cells of `dv_list` on entry. -/
def stack_dv (stack : Stack R) : List (v3_t R) :=
  [stack.dv_list 0, stack.dv_list 1, stack.dv_list 2, stack.dv_list 3, stack.dv_list 4]

/-- The buffer `dtheta_list` holding the gyro increments of the samples
`start_ind .. start_ind + |N| - 1` in its first `|N|` cells; the other cells are as on
entry. -/
def gyro_window (imu : imu_t R) (stack : Stack R) (N : Int) (start_ind : Int) :
    List (v3_t R) :=
  (List.range N.natAbs).map (fun j : Nat => (imu.data (start_ind + j)).gryo) ++
    (stack_dtheta stack).drop N.natAbs

/-- The buffer `dv_list` holding the accel increments of the samples
`start_ind .. start_ind + |N| - 1` in its first `|N|` cells; the other cells are as on
entry. -/
def accel_window (imu : imu_t R) (stack : Stack R) (N : Int) (start_ind : Int) :
    List (v3_t R) :=
  (List.range N.natAbs).map (fun j : Nat => (imu.data (start_ind + j)).accel) ++
    (stack_dv stack).drop N.natAbs

/-- Number of iterations of the second loop when `N ≠ 0`: one per sample from `|N| - 1`
on when `N < 0`, and `⌊n / N⌋` when `N > 0`. -/
def main_count (N n : Int) : Nat :=
  if N < 0 then (n - N.natAbs + 1).toNat else (n / N).toNat

/-- The values taken by `i` in the second loop when `N ≠ 0`. -/
def main_indices (N n : Int) : List Int :=
  (List.range (main_count N n)).map (fun k : Nat => (N.natAbs : Int) - 1 + k * nSample_of N)

/-- The output line of the first loop for sample `i`, as a function of the state
`(r, v, q)` at that point: raw ECEF position and velocity, and `quat2euler` of `q`. -/
def ecef_line (ins : Ins R) (imu : imu_t R) (i : Int) (st : v3_t R × v3_t R × quat_t R) :
    Event R :=
  Event.record (imu.data i).time.sec st.1 st.2.1 (ins.quat2euler st.2.2)

/-- The output line of the second loop for sample `i`, as a function of the state
`(r, v, q)` at that point: `ecef2ned` of `(r, v, quat2dcm q)`, and `dcm2euler` of the
transposed attitude, angles scaled by `RAD2DEG`. -/
def ned_line (ins : Ins R) (imu : imu_t R) (i : Int) (st : v3_t R × v3_t R × quat_t R) :
    Event R :=
  let ned := ins.ecef2ned st.1 st.2.1 (ins.quat2dcm st.2.2)
  let Enb := ins.dcm2euler (ins.m3_transpose ned.2.2)
  Event.record (imu.data i).time.sec
    ⟨ned.1.i * RAD2DEG, ned.1.j * RAD2DEG, ned.1.k⟩
    ned.2.1
    ⟨Enb.i * RAD2DEG, Enb.j * RAD2DEG, Enb.k * RAD2DEG⟩

/-- The two buffers have their five cells, and the cells from `|N|` on are as on entry. -/
def BufOK (stack : Stack R) (N : Int) (s : Frame R) : Prop :=
  s.dtheta_list.length = 5 ∧ s.dv_list.length = 5 ∧
    s.dtheta_list.drop N.natAbs = (stack_dtheta stack).drop N.natAbs ∧
    s.dv_list.drop N.natAbs = (stack_dv stack).drop N.natAbs

/-- The events of one iteration of the second loop at index `i`, entered with state
`(r, v, q) = st`. -/
def step_events (ins : Ins R) (imu : imu_t R) (stack : Stack R) (N : Int) (dt : R)
    (nSample : Int) (st : v3_t R × v3_t R × quat_t R) (i : Int) : List (Event R) :=
  let start_ind : Int := i - N.natAbs + 1
  let gw := gyro_window imu stack N start_ind
  let aw := accel_window imu stack N start_ind
  let ms := ins.multisample gw aw N
  (List.range N.natAbs).map (fun j : Nat => Event.load j (start_ind + j)) ++
    [Event.multisample gw aw N,
     Event.nav_equations_ecef (dt * (nSample : R)) ms.1 ms.2 st.1 st.2.1 st.2.2,
     Event.read i,
     ned_line ins imu i (ins.nav_equations_ecef (dt * (nSample : R)) ms.1 ms.2 st.1 st.2.1 st.2.2)]

/-- The events of one iteration of the first loop at index `i`, entered with state
`(r, v, q) = st`. -/
def prelude_events (ins : Ins R) (imu : imu_t R) (dt : R)
    (st : v3_t R × v3_t R × quat_t R) (i : Nat) : List (Event R) :=
  [Event.read i,
   Event.nav_equations_ecef dt (imu.data i).gryo (imu.data i).accel st.1 st.2.1 st.2.2,
   Event.read i,
   ecef_line ins imu i
     (ins.nav_equations_ecef dt (imu.data i).gryo (imu.data i).accel st.1 st.2.1 st.2.2)]

/-- The state `(r, v, q)` of a frame. -/
def Frame.state (s : Frame R) : v3_t R × v3_t R × quat_t R := (s.r, s.v, s.q)

/-- State after one iteration of the first loop at index `i`. -/
def prelude_next (ins : Ins R) (imu : imu_t R) (dt : R)
    (st : v3_t R × v3_t R × quat_t R) (i : Nat) : v3_t R × v3_t R × quat_t R :=
  ins.nav_equations_ecef dt (imu.data i).gryo (imu.data i).accel st.1 st.2.1 st.2.2

/-- State after one iteration of the second loop at index `i`. -/
def step_next (ins : Ins R) (imu : imu_t R) (stack : Stack R) (N : Int) (dt : R)
    (nSample : Int) (st : v3_t R × v3_t R × quat_t R) (i : Int) :
    v3_t R × v3_t R × quat_t R :=
  ins.nav_equations_ecef (dt * (nSample : R))
    (ins.multisample (gyro_window imu stack N (i - N.natAbs + 1))
      (accel_window imu stack N (i - N.natAbs + 1)) N).1
    (ins.multisample (gyro_window imu stack N (i - N.natAbs + 1))
      (accel_window imu stack N (i - N.natAbs + 1)) N).2 st.1 st.2.1 st.2.2

/-- The events of consecutive iterations over the indices of a list, each iteration
entered with the state left by the one before. -/
def run_events {α : Type} (ev : v3_t R × v3_t R × quat_t R → α → List (Event R))
    (nx : v3_t R × v3_t R × quat_t R → α → v3_t R × v3_t R × quat_t R) :
    v3_t R × v3_t R × quat_t R → List α → List (Event R)
  | _, [] => []
  | st, a :: l => ev st a ++ run_events ev nx (nx st a) l

/-- The indices of the first loop: `0 .. |N| - 2` when `N < 0`, none otherwise. -/
def prelude_indices (N : Int) : List Nat :=
  if N < 0 then List.range (N.natAbs - 1) else []

/-- State `(r, v, q)` after the first loop. -/
def prelude_state (ins : Ins R) (imu : imu_t R) (N : Int) (r v : v3_t R) (q : quat_t R) :
    v3_t R × v3_t R × quat_t R :=
  (prelude_indices N).foldl (prelude_next ins imu (nav_dt imu)) (r, v, q)

/-- The trace of a complete run for `N ≠ 0`, `|N| ≤ 5`: the two reads of `dt`, the
iterations of the first loop, the iterations of the second loop. -/
def run_trace (ins : Ins R) (imu : imu_t R) (N : Int) (r v : v3_t R) (q : quat_t R)
    (stack : Stack R) : List (Event R) :=
  [Event.read 1, Event.read 0] ++
    run_events (prelude_events ins imu (nav_dt imu)) (prelude_next ins imu (nav_dt imu))
      (r, v, q) (prelude_indices N) ++
    run_events (step_events ins imu stack N (nav_dt imu) (nSample_of N))
      (step_next ins imu stack N (nav_dt imu) (nSample_of N))
      (prelude_state ins imu N r v q) (main_indices N imu.n)

/-- Componentwise sum of two vectors. -/
def test_add (a b : v3_t ℚ) : v3_t ℚ := ⟨a.i + b.i, a.j + b.j, a.k + b.k⟩

/-- A concrete library: position integrates velocity over `dt`, velocity adds `dv`, the
quaternion adds `dtheta`; `multisample` sums the first `|N|` cells of each buffer. -/
def test_ins : Ins ℚ where
  nav_equations_ecef dt dtheta dv r v q :=
    (⟨r.i + v.i * dt, r.j + v.j * dt, r.k + v.k * dt⟩, test_add v dv,
      ⟨q.q0, q.q1 + dtheta.i, q.q2 + dtheta.j, q.q3 + dtheta.k⟩)
  multisample dl vl N :=
    ((dl.take N.natAbs).foldl test_add ⟨0, 0, 0⟩, (vl.take N.natAbs).foldl test_add ⟨0, 0, 0⟩)
  quat2dcm q := ⟨q.q0, q.q1, q.q2, q.q3, 0, 0, 0, 0, 0⟩
  ecef2ned pos vel att := (pos, vel, att)
  m3_transpose A := ⟨A.m11, A.m21, A.m31, A.m12, A.m22, A.m32, A.m13, A.m23, A.m33⟩
  dcm2euler A := ⟨A.m11, A.m12, A.m13⟩
  quat2euler q := ⟨q.q1, q.q2, q.q3⟩

/-- Sample `i` of the concrete dataset: time `i / 100` s held in `sec`, gyro increment
`(i, 0, 0)`, accel increment `(0, i, 1)`. -/
def test_data (i : Int) : imud_t ℚ :=
  ⟨⟨0, (i : ℚ) / 100⟩, ⟨(i : ℚ), 0, 0⟩, ⟨0, (i : ℚ), 1⟩⟩

/-- The concrete dataset with `n` samples and all error-model parameters zero. -/
def test_imu (n : Int) : imu_t ℚ :=
  { arw := ⟨0, 0, 0⟩, arrw := ⟨0, 0, 0⟩, vrw := ⟨0, 0, 0⟩, vrrw := ⟨0, 0, 0⟩
    Ta := ⟨0, 0, 0⟩, Tg := ⟨0, 0, 0⟩, initr := ⟨0, 0, 0⟩, initQr := ⟨0, 0, 0⟩
    initv := ⟨0, 0, 0⟩, initQv := ⟨0, 0, 0⟩, inita := ⟨0, 0, 0⟩, initQa := ⟨0, 0, 0⟩
    initQgb := ⟨0, 0, 0⟩, initQab := ⟨0, 0, 0⟩, lever_arm := ⟨0, 0, 0⟩
    n := n, nmax := n, data := test_data }

/-- Concrete initial values of the uninitialised locals. -/
def test_stack : Stack ℚ :=
  { euler := ⟨0, 0, 0⟩, dtheta_list := fun _ => ⟨7, 7, 7⟩, dv_list := fun _ => ⟨9, 9, 9⟩
    dtheta := ⟨0, 0, 0⟩, dv := ⟨0, 0, 0⟩, dcm := ⟨0, 0, 0, 0, 0, 0, 0, 0, 0⟩
    pos := ⟨0, 0, 0⟩, veb_n := ⟨0, 0, 0⟩, Enb := ⟨0, 0, 0⟩ }

/-- Concrete initial position. -/
def test_r : v3_t ℚ := ⟨1, 2, 3⟩

/-- Concrete initial velocity. -/
def test_v : v3_t ℚ := ⟨0, 0, 0⟩

/-- Concrete initial attitude. -/
def test_q : quat_t ℚ := ⟨1, 0, 0, 0⟩

/-- The output line of a step on sample `i`: the line of the first loop when `single`,
the line of the second loop otherwise. -/
def line_of (ins : Ins R) (imu : imu_t R) (single : Bool) (i : Int)
    (st : v3_t R × v3_t R × quat_t R) : Event R :=
  if single then ecef_line ins imu i st else ned_line ins imu i st

/-- The steps of a complete run for `N ≠ 0`, in order: `(true, i)` for the single-sample
step of the first loop on sample `i`, `(false, i)` for the step of the second loop whose
window ends at sample `i`. -/
def step_plan (N n : Int) : List (Bool × Int) :=
  (prelude_indices N).map (fun i : Nat => (true, (i : Int))) ++
    (main_indices N n).map (fun i : Int => (false, i))

/-- A call of `nav_equations_ecef` followed by the output line of the planned step,
computed from the state the call returns. -/
def call_and_line (ins : Ins R) (imu : imu_t R) (p : (Bool × Int) × Event R) :
    List (Event R) :=
  match nav_result ins p.2 with
  | some st => [p.2, line_of ins imu p.1.1 p.1.2 st]
  | none => [p.2]

/-- The time difference `t1 - t0` that combines both fields of `gtime_t`, as the data
model of the spec words it: `(t1.time - t0.time) + (t1.sec - t0.sec)`. -/
def timediff_combined (t1 t0 : gtime_t R) : R :=
  ((t1.time - t0.time : Int) : R) + (t1.sec - t0.sec)

/-- Sample `i` of a dataset sampled every 10 ms from 0.995 s on, with the time split as
`gtime_t` documents it: whole seconds in `time`, the fraction under 1 s in `sec`. -/
def test_data_boundary (i : Int) : imud_t ℚ :=
  ⟨⟨(199 + 2 * i) / 200, (((199 + 2 * i) % 200 : Int) : ℚ) / 200⟩, ⟨(i : ℚ), 0, 0⟩,
    ⟨0, (i : ℚ), 1⟩⟩

/-- The dataset of `test_data_boundary` with `n` samples. -/
def test_imu_boundary (n : Int) : imu_t ℚ :=
  { test_imu n with data := test_data_boundary }

/-! ## `str2num` -/

/-- Sample `i` of the two datasets agrees in `time.sec`, `gryo` and `accel`. -/
def agree_at (imu1 imu2 : imu_t R) (i : Int) : Prop :=
  (imu1.data i).time.sec = (imu2.data i).time.sec ∧
    (imu1.data i).gryo = (imu2.data i).gryo ∧ (imu1.data i).accel = (imu2.data i).accel

/-! ## The window copy -/

theorem set_window_cell {α : Type} (g : Nat → α) (l : List α) (m : Nat) (h : m < l.length) :
    ((List.range m).map g ++ l.drop m).set m (g m) =
      (List.range (m + 1)).map g ++ l.drop (m + 1) := by
  rw [List.set_append]
  simp only [List.length_map, List.length_range, lt_irrefl, if_false, Nat.sub_self]
  rw [List.drop_eq_getElem_cons h, List.set_cons_zero, List.range_succ, List.map_append]
  simp

theorem window_fold (imu : imu_t R) (start_ind : Int) (m : Nat) (s : Frame R)
    (hm : m ≤ 5)
    (hg : s.dtheta_list.length = 5) (ha : s.dv_list.length = 5) :
    (List.range m).foldl (window_step imu start_ind) s =
      { s with
        dtheta_list := (List.range m).map (fun j : Nat => (imu.data (start_ind + j)).gryo) ++
          s.dtheta_list.drop m
        dv_list := (List.range m).map (fun j : Nat => (imu.data (start_ind + j)).accel) ++
          s.dv_list.drop m
        trace := s.trace ++ (List.range m).map (fun j : Nat => Event.load j (start_ind + j)) } := by
  induction m with
  | zero => simp
  | succ m ih =>
    rw [List.range_succ, List.foldl_append, ih (by omega)]
    simp only [List.foldl_cons, List.foldl_nil, window_step]
    rw [set_window_cell (fun j : Nat => (imu.data (start_ind + j)).gryo) _ m (by omega),
      set_window_cell (fun j : Nat => (imu.data (start_ind + j)).accel) _ m (by omega)]
    simp [List.range_succ]

/-! ## One iteration of each loop -/

theorem bufOK_entry (r v : v3_t R) (q : quat_t R) (stack : Stack R) (N : Int) :
    BufOK stack N (entry_frame r v q stack) :=
  ⟨rfl, rfl, rfl, rfl⟩

theorem prelude_step_trace (ins : Ins R) (imu : imu_t R) (dt : R) (s : Frame R) (i : Nat) :
    (prelude_step ins imu dt s i).trace = s.trace ++ prelude_events ins imu dt s.state i := by
  simp [prelude_step, prelude_events, ecef_line, Frame.state]

theorem prelude_step_state (ins : Ins R) (imu : imu_t R) (dt : R) (s : Frame R) (i : Nat) :
    (prelude_step ins imu dt s i).state =
      ins.nav_equations_ecef dt (imu.data i).gryo (imu.data i).accel s.r s.v s.q := rfl

theorem prelude_step_bufOK (ins : Ins R) (imu : imu_t R) (dt : R) (stack : Stack R) (N : Int)
    (s : Frame R) (i : Nat) (hs : BufOK stack N s) :
    BufOK stack N (prelude_step ins imu dt s i) := hs

theorem step_ecef_trace (ins : Ins R) (imu : imu_t R) (stack : Stack R) (N : Int) (dt : R)
    (nSample : Int) (s : Frame R) (i : Int) (hN : N.natAbs ≤ 5) (hs : BufOK stack N s) :
    (step_ecef ins imu N dt nSample s i).trace =
      s.trace ++ step_events ins imu stack N dt nSample s.state i := by
  obtain ⟨hg, ha, hgt, hat⟩ := hs
  simp only [step_ecef]
  rw [window_fold imu _ N.natAbs s hN hg ha]
  simp [step_events, ned_line, gyro_window, accel_window, hgt, hat, Frame.state]

theorem step_ecef_state (ins : Ins R) (imu : imu_t R) (stack : Stack R) (N : Int) (dt : R)
    (nSample : Int) (s : Frame R) (i : Int) (hN : N.natAbs ≤ 5) (hs : BufOK stack N s) :
    (step_ecef ins imu N dt nSample s i).state =
      ins.nav_equations_ecef (dt * (nSample : R))
        (ins.multisample (gyro_window imu stack N (i - N.natAbs + 1))
          (accel_window imu stack N (i - N.natAbs + 1)) N).1
        (ins.multisample (gyro_window imu stack N (i - N.natAbs + 1))
          (accel_window imu stack N (i - N.natAbs + 1)) N).2 s.r s.v s.q := by
  obtain ⟨hg, ha, hgt, hat⟩ := hs
  simp only [step_ecef]
  rw [window_fold imu _ N.natAbs s hN hg ha]
  simp [gyro_window, accel_window, hgt, hat, Frame.state]

theorem step_ecef_bufOK (ins : Ins R) (imu : imu_t R) (stack : Stack R) (N : Int) (dt : R)
    (nSample : Int) (s : Frame R) (i : Int) (hN : N.natAbs ≤ 5) (hs : BufOK stack N s) :
    BufOK stack N (step_ecef ins imu N dt nSample s i) := by
  obtain ⟨hg, ha, hgt, hat⟩ := hs
  simp only [step_ecef]
  rw [window_fold imu _ N.natAbs s hN hg ha]
  refine ⟨?_, ?_, ?_, ?_⟩
  · simp [hg]; omega
  · simp [ha]; omega
  · simp [hgt]
  · simp [hat]

/-! ## The loops -/

theorem foldl_trace {α : Type} (f : Frame R → α → Frame R) (Inv : Frame R → Prop)
    (ev : v3_t R × v3_t R × quat_t R → α → List (Event R))
    (nx : v3_t R × v3_t R × quat_t R → α → v3_t R × v3_t R × quat_t R)
    (hInv : ∀ s a, Inv s → Inv (f s a))
    (htr : ∀ s a, Inv s → (f s a).trace = s.trace ++ ev s.state a)
    (hst : ∀ s a, Inv s → (f s a).state = nx s.state a) :
    ∀ (l : List α) (s : Frame R), Inv s →
      Inv (l.foldl f s) ∧ (l.foldl f s).trace = s.trace ++ run_events ev nx s.state l ∧
        (l.foldl f s).state = l.foldl nx s.state := by
  intro l
  induction l with
  | nil => intro s hs; simp [run_events, hs]
  | cons a l ih =>
    intro s hs
    obtain ⟨h1, h2, h3⟩ := ih (f s a) (hInv s a hs)
    refine ⟨h1, ?_, ?_⟩
    · simp only [List.foldl_cons, h2, htr s a hs, run_events, hst s a hs, List.append_assoc]
    · simp only [List.foldl_cons, h3, hst s a hs]

theorem main_loop_fold (ins : Ins R) (imu : imu_t R) (N : Int) (dt : R) (nSample : Int) :
    ∀ (cnt fuel : Nat) (start : Int) (s : Frame R),
      (∀ k : Nat, k < cnt → start + k * nSample < imu.n) →
      imu.n ≤ start + cnt * nSample → cnt < fuel →
      main_loop ins imu N dt nSample fuel start s =
        (true, ((List.range cnt).map (fun k : Nat => start + k * nSample)).foldl
          (step_ecef ins imu N dt nSample) s) := by
  intro cnt
  induction cnt with
  | zero =>
    intro fuel start s _ hge hf
    obtain ⟨f, rfl⟩ : ∃ f, fuel = f + 1 := ⟨fuel - 1, by omega⟩
    have : ¬ start < imu.n := by simpa using hge
    simp [main_loop, this]
  | succ cnt ih =>
    intro fuel start s hlt hge hf
    obtain ⟨f, rfl⟩ : ∃ f, fuel = f + 1 := ⟨fuel - 1, by omega⟩
    have h0 : start < imu.n := by simpa using hlt 0 (by omega)
    have hlt2 : ∀ k : Nat, k < cnt → start + nSample + k * nSample < imu.n := by
      intro k hk
      have := hlt (k + 1) (by omega)
      push_cast at this
      linarith
    have hge2 : imu.n ≤ start + nSample + cnt * nSample := by
      push_cast at hge
      linarith
    rw [main_loop, if_pos h0, ih f (start + nSample) _ hlt2 hge2 (by omega),
      List.range_succ_eq_map, List.map_cons, List.foldl_cons, List.map_map]
    have hfun : ((fun k : Nat => start + (k : Int) * nSample) ∘ Nat.succ) =
        (fun k : Nat => start + nSample + (k : Int) * nSample) := by
      funext k
      simp only [Function.comp, Nat.succ_eq_add_one]
      push_cast
      ring
    simp [hfun]

theorem main_count_spec (N n : Int) (hN : N ≠ 0) :
    (∀ k : Nat, k < main_count N n → (N.natAbs : Int) - 1 + k * nSample_of N < n) ∧
      n ≤ (N.natAbs : Int) - 1 + (main_count N n : Nat) * nSample_of N := by
  unfold main_count nSample_of
  by_cases h : N < 0
  · simp only [h, if_true]
    constructor
    · intro k hk; omega
    · omega
  · have hpos : 0 < N := by omega
    have hab : (N.natAbs : Int) = N := Int.natAbs_of_nonneg hpos.le
    simp only [h, if_false, hab]
    have hdm := Int.ediv_add_emod n N
    have hm0 := Int.emod_nonneg n hN
    have hm1 := Int.emod_lt_of_pos n hpos
    by_cases hn : 0 ≤ n / N
    · have hq : ((n / N).toNat : Int) = n / N := Int.toNat_of_nonneg hn
      constructor
      · intro k hk
        have hk2 : (k : Int) + 1 ≤ n / N := by omega
        have := mul_le_mul_of_nonneg_right hk2 hpos.le
        nlinarith
      · rw [hq]; nlinarith
    · have hq : (n / N).toNat = 0 := by omega
      constructor
      · intro k hk; omega
      · rw [hq]
        have : n / N ≤ -1 := by omega
        have := mul_le_mul_of_nonneg_left this hpos.le
        push_cast
        nlinarith

theorem prelude_loop_spec (ins : Ins R) (imu : imu_t R) (N : Int) (stack : Stack R)
    (s : Frame R) (hs : BufOK stack N s) :
    BufOK stack N (prelude_loop ins imu N s) ∧
      (prelude_loop ins imu N s).trace = s.trace ++
        run_events (prelude_events ins imu (nav_dt imu)) (prelude_next ins imu (nav_dt imu))
          s.state (prelude_indices N) ∧
      (prelude_loop ins imu N s).state =
        (prelude_indices N).foldl (prelude_next ins imu (nav_dt imu)) s.state := by
  unfold prelude_loop prelude_indices
  by_cases h : N < 0
  · simp only [h, if_true]
    exact foldl_trace (prelude_step ins imu (nav_dt imu)) (BufOK stack N) _ _
      (fun s a hs => prelude_step_bufOK ins imu _ stack N s a hs)
      (fun s a _ => prelude_step_trace ins imu _ s a)
      (fun s a _ => prelude_step_state ins imu _ s a) _ s hs
  · simp [h, run_events, hs]

theorem nav_ins_ecef_halts (ins : Ins R) (imu : imu_t R) (N : Int) (r v : v3_t R)
    (q : quat_t R) (stack : Stack R) (fuel : Nat) (hN : N ≠ 0)
    (hf : main_count N imu.n < fuel) :
    nav_ins_ecef ins imu N r v q stack fuel =
      (true, (main_indices N imu.n).foldl
        (step_ecef ins imu N (nav_dt imu) (nSample_of N))
        (prelude_loop ins imu N (entry_frame r v q stack))) := by
  obtain ⟨h1, h2⟩ := main_count_spec N imu.n hN
  exact main_loop_fold ins imu N (nav_dt imu) (nSample_of N) (main_count N imu.n) fuel _ _
    h1 h2 hf

theorem nav_ins_ecef_run (ins : Ins R) (imu : imu_t R) (N : Int) (r v : v3_t R)
    (q : quat_t R) (stack : Stack R) (fuel : Nat) (hN : N ≠ 0) (hN5 : N.natAbs ≤ 5)
    (hf : main_count N imu.n < fuel) :
    (nav_ins_ecef ins imu N r v q stack fuel).1 = true ∧
      (nav_ins_ecef ins imu N r v q stack fuel).2.trace = run_trace ins imu N r v q stack ∧
      (nav_ins_ecef ins imu N r v q stack fuel).2.state =
        (main_indices N imu.n).foldl
          (step_next ins imu stack N (nav_dt imu) (nSample_of N))
          (prelude_state ins imu N r v q) := by
  rw [nav_ins_ecef_halts ins imu N r v q stack fuel hN hf]
  obtain ⟨p1, p2, p3⟩ :=
    prelude_loop_spec ins imu N stack (entry_frame r v q stack) (bufOK_entry r v q stack N)
  obtain ⟨_, m2, m3⟩ :=
    foldl_trace (step_ecef ins imu N (nav_dt imu) (nSample_of N)) (BufOK stack N)
      (step_events ins imu stack N (nav_dt imu) (nSample_of N))
      (step_next ins imu stack N (nav_dt imu) (nSample_of N))
      (fun s a hs => step_ecef_bufOK ins imu stack N _ _ s a hN5 hs)
      (fun s a hs => step_ecef_trace ins imu stack N _ _ s a hN5 hs)
      (fun s a hs => step_ecef_state ins imu stack N _ _ s a hN5 hs)
      (main_indices N imu.n) _ p1
  refine ⟨rfl, ?_, ?_⟩
  · rw [m2, p2, p3]; rfl
  · rw [m3, p3]; rfl

/-! ## Threading of the state -/

theorem flatMap_singleton_eq_map {α β : Type} (f : α → β) (l : List α) :
    l.flatMap (fun a => [f a]) = l.map f := by
  induction l with
  | nil => rfl
  | cons a l ih => simp [List.flatMap_cons, ih]

theorem flatMap_nil_eq_nil {α β : Type} (l : List α) :
    l.flatMap (fun _ => ([] : List β)) = [] := by
  induction l with
  | nil => rfl
  | cons a l ih => simp [List.flatMap_cons, ih]

theorem filterMap_map_some {α β γ : Type} (p : β → Option γ) (f : α → β) (g : α → γ)
    (h : ∀ a, p (f a) = some (g a)) (l : List α) : (l.map f).filterMap p = l.map g := by
  induction l with
  | nil => rfl
  | cons a l ih => simp [List.filterMap_cons, h, ih]

theorem filterMap_run_events {α β : Type} (p : Event R → Option β)
    (ev : v3_t R × v3_t R × quat_t R → α → List (Event R))
    (nx : v3_t R × v3_t R × quat_t R → α → v3_t R × v3_t R × quat_t R)
    (g : α → List β) (h : ∀ st a, (ev st a).filterMap p = g a) :
    ∀ (l : List α) (st : v3_t R × v3_t R × quat_t R),
      (run_events ev nx st l).filterMap p = l.flatMap g := by
  intro l
  induction l with
  | nil => intro st; rfl
  | cons a l ih =>
    intro st
    simp [run_events, List.filterMap_append, h, ih, List.flatMap_cons]

theorem nav_args_step_events (ins : Ins R) (imu : imu_t R) (stack : Stack R) (N : Int)
    (dt : R) (nSample : Int) (st : v3_t R × v3_t R × quat_t R) (i : Int) :
    nav_args (step_events ins imu stack N dt nSample st i) =
      [(dt * (nSample : R),
        ins.multisample (gyro_window imu stack N (i - N.natAbs + 1))
          (accel_window imu stack N (i - N.natAbs + 1)) N)] := by
  simp [nav_args, Event.nav_arg, step_events, ned_line, List.filterMap_append, List.filterMap_map]

theorem nav_args_prelude_events (ins : Ins R) (imu : imu_t R) (dt : R)
    (st : v3_t R × v3_t R × quat_t R) (i : Nat) :
    nav_args (prelude_events ins imu dt st i) =
      [(dt, (imu.data i).gryo, (imu.data i).accel)] := by
  simp [nav_args, Event.nav_arg, prelude_events, ecef_line]

theorem ms_calls_step_events (ins : Ins R) (imu : imu_t R) (stack : Stack R) (N : Int)
    (dt : R) (nSample : Int) (st : v3_t R × v3_t R × quat_t R) (i : Int) :
    ms_calls (step_events ins imu stack N dt nSample st i) =
      [(gyro_window imu stack N (i - N.natAbs + 1),
        accel_window imu stack N (i - N.natAbs + 1), N)] := by
  simp [ms_calls, Event.ms_arg, step_events, ned_line, List.filterMap_append, List.filterMap_map]

theorem ms_calls_prelude_events (ins : Ins R) (imu : imu_t R) (dt : R)
    (st : v3_t R × v3_t R × quat_t R) (i : Nat) :
    ms_calls (prelude_events ins imu dt st i) = [] := by
  simp [ms_calls, Event.ms_arg, prelude_events, ecef_line]

theorem loads_step_events (ins : Ins R) (imu : imu_t R) (stack : Stack R) (N : Int)
    (dt : R) (nSample : Int) (st : v3_t R × v3_t R × quat_t R) (i : Int) :
    loads (step_events ins imu stack N dt nSample st i) =
      (List.range N.natAbs).map (fun j : Nat => (j, i - N.natAbs + 1 + j)) := by
  unfold loads step_events
  rw [List.filterMap_append,
    filterMap_map_some Event.load_arg
      (fun j : Nat => (Event.load j (i - (N.natAbs : Int) + 1 + j) : Event R))
      (fun j : Nat => (j, i - (N.natAbs : Int) + 1 + j)) (fun _ => rfl)]
  simp [ned_line, Event.load_arg]

theorem loads_prelude_events (ins : Ins R) (imu : imu_t R) (dt : R)
    (st : v3_t R × v3_t R × quat_t R) (i : Nat) :
    loads (prelude_events ins imu dt st i) = [] := by
  simp [loads, Event.load_arg, prelude_events, ecef_line]

theorem accessed_step_events (ins : Ins R) (imu : imu_t R) (stack : Stack R) (N : Int)
    (dt : R) (nSample : Int) (st : v3_t R × v3_t R × quat_t R) (i : Int) :
    accessed (step_events ins imu stack N dt nSample st i) =
      (List.range N.natAbs).map (fun j : Nat => i - N.natAbs + 1 + j) ++ [i] := by
  unfold accessed step_events
  rw [List.filterMap_append,
    filterMap_map_some Event.index
      (fun j : Nat => (Event.load j (i - (N.natAbs : Int) + 1 + j) : Event R))
      (fun j : Nat => i - (N.natAbs : Int) + 1 + j) (fun _ => rfl)]
  simp [ned_line, Event.index]

theorem accessed_prelude_events (ins : Ins R) (imu : imu_t R) (dt : R)
    (st : v3_t R × v3_t R × quat_t R) (i : Nat) :
    accessed (prelude_events ins imu dt st i) = [(i : Int), (i : Int)] := by
  simp [accessed, Event.index, prelude_events, ecef_line]

theorem nav_args_run_trace (ins : Ins R) (imu : imu_t R) (N : Int) (r v : v3_t R)
    (q : quat_t R) (stack : Stack R) :
    nav_args (run_trace ins imu N r v q stack) =
      (prelude_indices N).map
          (fun i : Nat => (nav_dt imu, (imu.data i).gryo, (imu.data i).accel)) ++
        (main_indices N imu.n).map (fun i : Int =>
          (nav_dt imu * (nSample_of N : R),
            ins.multisample (gyro_window imu stack N (i - N.natAbs + 1))
              (accel_window imu stack N (i - N.natAbs + 1)) N)) := by
  unfold run_trace nav_args
  rw [List.filterMap_append, List.filterMap_append,
    filterMap_run_events Event.nav_arg _ _ _
      (fun st a => nav_args_prelude_events ins imu (nav_dt imu) st a),
    filterMap_run_events Event.nav_arg _ _ _
      (fun st a => nav_args_step_events ins imu stack N (nav_dt imu) (nSample_of N) st a),
    flatMap_singleton_eq_map, flatMap_singleton_eq_map]
  simp [Event.nav_arg]

theorem ms_calls_run_trace (ins : Ins R) (imu : imu_t R) (N : Int) (r v : v3_t R)
    (q : quat_t R) (stack : Stack R) :
    ms_calls (run_trace ins imu N r v q stack) =
      (main_indices N imu.n).map (fun i : Int =>
        (gyro_window imu stack N (i - N.natAbs + 1),
          accel_window imu stack N (i - N.natAbs + 1), N)) := by
  unfold run_trace ms_calls
  rw [List.filterMap_append, List.filterMap_append,
    filterMap_run_events Event.ms_arg _ _ _
      (fun st a => ms_calls_prelude_events ins imu (nav_dt imu) st a),
    filterMap_run_events Event.ms_arg _ _ _
      (fun st a => ms_calls_step_events ins imu stack N (nav_dt imu) (nSample_of N) st a),
    flatMap_singleton_eq_map, flatMap_nil_eq_nil]
  simp [Event.ms_arg]

theorem loads_run_trace (ins : Ins R) (imu : imu_t R) (N : Int) (r v : v3_t R)
    (q : quat_t R) (stack : Stack R) :
    loads (run_trace ins imu N r v q stack) =
      (main_indices N imu.n).flatMap (fun i : Int =>
        (List.range N.natAbs).map (fun j : Nat => (j, i - N.natAbs + 1 + j))) := by
  unfold run_trace loads
  rw [List.filterMap_append, List.filterMap_append,
    filterMap_run_events Event.load_arg _ _ _
      (fun st a => loads_prelude_events ins imu (nav_dt imu) st a),
    filterMap_run_events Event.load_arg _ _ _
      (fun st a => loads_step_events ins imu stack N (nav_dt imu) (nSample_of N) st a),
    flatMap_nil_eq_nil]
  simp [Event.load_arg]

theorem accessed_run_trace (ins : Ins R) (imu : imu_t R) (N : Int) (r v : v3_t R)
    (q : quat_t R) (stack : Stack R) :
    accessed (run_trace ins imu N r v q stack) =
      [1, 0] ++ (prelude_indices N).flatMap (fun i : Nat => [(i : Int), (i : Int)]) ++
        (main_indices N imu.n).flatMap (fun i : Int =>
          (List.range N.natAbs).map (fun j : Nat => i - N.natAbs + 1 + j) ++ [i]) := by
  unfold run_trace accessed
  rw [List.filterMap_append, List.filterMap_append,
    filterMap_run_events Event.index _ _ _
      (fun st a => accessed_prelude_events ins imu (nav_dt imu) st a),
    filterMap_run_events Event.index _ _ _
      (fun st a => accessed_step_events ins imu stack N (nav_dt imu) (nSample_of N) st a)]
  simp [Event.index]

/-! ## Index arithmetic of the second loop -/

theorem main_indices_pos (N n : Int) (hN : 0 < N) :
    main_indices N n = (List.range (n / N).toNat).map (fun k : Nat => N - 1 + k * N) := by
  have h : ¬ N < 0 := by omega
  have hab : (N.natAbs : Int) = N := Int.natAbs_of_nonneg hN.le
  simp only [main_indices, main_count, nSample_of, h, if_false, hab]

theorem main_indices_neg (N n : Int) (hN : N < 0) :
    main_indices N n =
      (List.range (n - N.natAbs + 1).toNat).map (fun k : Nat => (N.natAbs : Int) - 1 + k) := by
  simp only [main_indices, main_count, nSample_of, hN, if_true, mul_one]

theorem window_cell (imu : imu_t R) (stack : Stack R) (N : Int) (start_ind : Int) (j : Nat)
    (hj : j < N.natAbs) :
    (gyro_window imu stack N start_ind)[j]? = some (imu.data (start_ind + j)).gryo ∧
      (accel_window imu stack N start_ind)[j]? = some (imu.data (start_ind + j)).accel := by
  unfold gyro_window accel_window
  constructor
  · rw [List.getElem?_append_left (by simpa using hj)]
    simp [List.getElem?_map, List.getElem?_range hj]
  · rw [List.getElem?_append_left (by simpa using hj)]
    simp [List.getElem?_map, List.getElem?_range hj]

theorem window_length (imu : imu_t R) (stack : Stack R) (N : Int) (start_ind : Int)
    (hN : N.natAbs ≤ 5) :
    (gyro_window imu stack N start_ind).length = 5 ∧
      (accel_window imu stack N start_ind).length = 5 := by
  unfold gyro_window accel_window stack_dtheta stack_dv
  constructor <;> simp <;> omega

theorem range_mul_flatMap (q m : Nat) :
    List.range (q * m) =
      (List.range q).flatMap (fun k : Nat => (List.range m).map (fun j : Nat => k * m + j)) := by
  induction q with
  | zero => simp
  | succ q ih =>
    rw [List.range_succ, List.flatMap_append, ← ih, Nat.succ_mul, List.range_add]
    simp

theorem mem_main_indices (N n i : Int) (hN : N ≠ 0) (hi : i ∈ main_indices N n) :
    (N.natAbs : Int) - 1 ≤ i ∧ i < n := by
  unfold main_indices at hi
  obtain ⟨k, hk, rfl⟩ := List.mem_map.mp hi
  have hk2 : k < main_count N n := List.mem_range.mp hk
  refine ⟨?_, (main_count_spec N n hN).1 k hk2⟩
  have hnS : 0 ≤ nSample_of N := by
    unfold nSample_of
    split <;> omega
  have : 0 ≤ (k : Int) * nSample_of N := mul_nonneg (Int.natCast_nonneg k) hnS
  omega

theorem accessed_in_bounds (ins : Ins R) (imu : imu_t R) (N : Int) (r v : v3_t R)
    (q : quat_t R) (stack : Stack R) (hN : N ≠ 0) (hn2 : 2 ≤ imu.n)
    (hnN : (N.natAbs : Int) - 1 ≤ imu.n) :
    ∀ idx ∈ accessed (run_trace ins imu N r v q stack), 0 ≤ idx ∧ idx < imu.n := by
  intro idx hidx
  rw [accessed_run_trace] at hidx
  simp only [List.mem_append, List.mem_flatMap, List.mem_cons, List.mem_map, List.mem_range,
    List.mem_singleton, List.not_mem_nil, or_false] at hidx
  rcases hidx with ((h | h) | ⟨i, hi, h⟩) | ⟨i, hi, h⟩
  · omega
  · omega
  · have hi2 : i < N.natAbs - 1 := by
      unfold prelude_indices at hi
      split at hi
      · exact List.mem_range.mp hi
      · simp at hi
    rcases h with h | h <;> omega
  · obtain ⟨hlo, hhi⟩ := mem_main_indices N imu.n i hN hi
    rcases h with ⟨j, hj, rfl⟩ | rfl <;> omega

/-! ## Calls and output lines -/

theorem length_filter_run_events {α : Type} (p : Event R → Bool)
    (ev : v3_t R × v3_t R × quat_t R → α → List (Event R))
    (nx : v3_t R × v3_t R × quat_t R → α → v3_t R × v3_t R × quat_t R)
    (h : ∀ st a, ((ev st a).filter p).length = 1) :
    ∀ (l : List α) (st : v3_t R × v3_t R × quat_t R),
      ((run_events ev nx st l).filter p).length = l.length := by
  intro l
  induction l with
  | nil => intro st; rfl
  | cons a l ih =>
    intro st
    simp only [run_events, List.filter_append, List.length_append, h, ih, List.length_cons]
    omega

theorem nav_records_run_events {α : Type} (ins : Ins R) (imu : imu_t R)
    (ev : v3_t R × v3_t R × quat_t R → α → List (Event R))
    (nx : v3_t R × v3_t R × quat_t R → α → v3_t R × v3_t R × quat_t R)
    (tag : α → Bool × Int)
    (h : ∀ st a, ∃ c, nav_calls (ev st a) = [c] ∧
      nav_records (ev st a) = call_and_line ins imu (tag a, c)) :
    ∀ (l : List α) (st : v3_t R × v3_t R × quat_t R),
      (nav_calls (run_events ev nx st l)).length = l.length ∧
        nav_records (run_events ev nx st l) =
          (List.zip (l.map tag) (nav_calls (run_events ev nx st l))).flatMap
            (call_and_line ins imu) := by
  intro l
  induction l with
  | nil => intro st; exact ⟨rfl, rfl⟩
  | cons a l ih =>
    intro st
    obtain ⟨c, hc1, hc2⟩ := h st a
    obtain ⟨ih1, ih2⟩ := ih (nx st a)
    have hcalls : nav_calls (run_events ev nx st (a :: l)) =
        c :: nav_calls (run_events ev nx (nx st a) l) := by
      unfold nav_calls at hc1 ⊢
      simp only [run_events, List.filter_append, hc1, List.singleton_append]
    have hrecs : nav_records (run_events ev nx st (a :: l)) =
        call_and_line ins imu (tag a, c) ++ nav_records (run_events ev nx (nx st a) l) := by
      unfold nav_records at hc2 ⊢
      simp only [run_events, List.filter_append, hc2]
    refine ⟨by rw [hcalls, List.length_cons, ih1, List.length_cons], ?_⟩
    rw [hrecs, hcalls, ih2, List.map_cons, List.zip_cons_cons, List.flatMap_cons]

theorem prelude_events_calls (ins : Ins R) (imu : imu_t R) (dt : R)
    (st : v3_t R × v3_t R × quat_t R) (i : Nat) :
    ∃ c, nav_calls (prelude_events ins imu dt st i) = [c] ∧
      nav_records (prelude_events ins imu dt st i) =
        call_and_line ins imu ((true, (i : Int)), c) :=
  ⟨Event.nav_equations_ecef dt (imu.data i).gryo (imu.data i).accel st.1 st.2.1 st.2.2,
    by simp [nav_calls, prelude_events, ecef_line, Event.is_nav],
    by simp [nav_records, prelude_events, ecef_line, Event.is_nav, Event.is_record,
      call_and_line, nav_result, line_of]⟩

theorem filter_loads_eq_nil (p : Event R → Bool) (hp : ∀ j idx, p (Event.load j idx) = false)
    (f : Nat → Int) (l : List Nat) :
    (l.map (fun j : Nat => (Event.load j (f j) : Event R))).filter p = [] := by
  induction l with
  | nil => rfl
  | cons a l ih => simp [List.filter_cons, hp, ih]

theorem step_events_calls (ins : Ins R) (imu : imu_t R) (stack : Stack R) (N : Int) (dt : R)
    (nSample : Int) (st : v3_t R × v3_t R × quat_t R) (i : Int) :
    ∃ c, nav_calls (step_events ins imu stack N dt nSample st i) = [c] ∧
      nav_records (step_events ins imu stack N dt nSample st i) =
        call_and_line ins imu ((false, i), c) := by
  refine ⟨Event.nav_equations_ecef (dt * (nSample : R))
    (ins.multisample (gyro_window imu stack N (i - N.natAbs + 1))
      (accel_window imu stack N (i - N.natAbs + 1)) N).1
    (ins.multisample (gyro_window imu stack N (i - N.natAbs + 1))
      (accel_window imu stack N (i - N.natAbs + 1)) N).2 st.1 st.2.1 st.2.2, ?_, ?_⟩
  · unfold nav_calls step_events
    rw [List.filter_append,
      filter_loads_eq_nil Event.is_nav (fun _ _ => rfl) (fun j => i - (N.natAbs : Int) + 1 + j)]
    simp [ned_line, Event.is_nav]
  · unfold nav_records step_events
    rw [List.filter_append,
      filter_loads_eq_nil (fun e => e.is_nav || e.is_record) (fun _ _ => rfl)
        (fun j => i - (N.natAbs : Int) + 1 + j)]
    simp [ned_line, Event.is_nav, Event.is_record, call_and_line, nav_result, line_of]

theorem records_prelude_events (ins : Ins R) (imu : imu_t R) (dt : R)
    (st : v3_t R × v3_t R × quat_t R) (i : Nat) :
    ((prelude_events ins imu dt st i).filter Event.is_record).length = 1 := by
  simp [prelude_events, ecef_line, Event.is_record]

theorem records_step_events (ins : Ins R) (imu : imu_t R) (stack : Stack R) (N : Int)
    (dt : R) (nSample : Int) (st : v3_t R × v3_t R × quat_t R) (i : Int) :
    ((step_events ins imu stack N dt nSample st i).filter Event.is_record).length = 1 := by
  unfold step_events
  rw [List.filter_append,
    filter_loads_eq_nil Event.is_record (fun _ _ => rfl) (fun j => i - (N.natAbs : Int) + 1 + j)]
  simp [ned_line, Event.is_record]

theorem nav_records_run_trace (ins : Ins R) (imu : imu_t R) (N : Int) (r v : v3_t R)
    (q : quat_t R) (stack : Stack R) :
    (nav_calls (run_trace ins imu N r v q stack)).length = (step_plan N imu.n).length ∧
      (records (run_trace ins imu N r v q stack)).length = (step_plan N imu.n).length ∧
      nav_records (run_trace ins imu N r v q stack) =
        (List.zip (step_plan N imu.n) (nav_calls (run_trace ins imu N r v q stack))).flatMap
          (call_and_line ins imu) := by
  obtain ⟨a1, a2⟩ := nav_records_run_events ins imu
    (prelude_events ins imu (nav_dt imu)) (prelude_next ins imu (nav_dt imu))
    (fun i : Nat => (true, (i : Int)))
    (fun st a => prelude_events_calls ins imu (nav_dt imu) st a)
    (prelude_indices N) (r, v, q)
  obtain ⟨b1, b2⟩ := nav_records_run_events ins imu
    (step_events ins imu stack N (nav_dt imu) (nSample_of N))
    (step_next ins imu stack N (nav_dt imu) (nSample_of N))
    (fun i : Int => (false, i))
    (fun st a => step_events_calls ins imu stack N (nav_dt imu) (nSample_of N) st a)
    (main_indices N imu.n) (prelude_state ins imu N r v q)
  have c1 := length_filter_run_events Event.is_record
    (prelude_events ins imu (nav_dt imu)) (prelude_next ins imu (nav_dt imu))
    (fun st a => records_prelude_events ins imu (nav_dt imu) st a)
    (prelude_indices N) (r, v, q)
  have c2 := length_filter_run_events Event.is_record
    (step_events ins imu stack N (nav_dt imu) (nSample_of N))
    (step_next ins imu stack N (nav_dt imu) (nSample_of N))
    (fun st a => records_step_events ins imu stack N (nav_dt imu) (nSample_of N) st a)
    (main_indices N imu.n) (prelude_state ins imu N r v q)
  have hcalls : nav_calls (run_trace ins imu N r v q stack) =
      nav_calls (run_events (prelude_events ins imu (nav_dt imu))
        (prelude_next ins imu (nav_dt imu)) (r, v, q) (prelude_indices N)) ++
      nav_calls (run_events (step_events ins imu stack N (nav_dt imu) (nSample_of N))
        (step_next ins imu stack N (nav_dt imu) (nSample_of N))
        (prelude_state ins imu N r v q) (main_indices N imu.n)) := by
    simp [nav_calls, run_trace, List.filter_append, Event.is_nav]
  refine ⟨?_, ?_, ?_⟩
  · rw [hcalls]
    simp [step_plan, a1, b1]
  · simp only [records, run_trace, List.filter_append, List.length_append, c1, c2]
    simp [step_plan, Event.is_record]
  · rw [hcalls]
    unfold step_plan
    rw [List.zip_append (by simp [a1]), List.flatMap_append, ← a2, ← b2]
    simp [nav_records, run_trace, List.filter_append, Event.is_nav, Event.is_record]

/-! ## Counting the calls -/

theorem window_fold_trace (imu : imu_t R) (start_ind : Int) (m : Nat) (s : Frame R) :
    ((List.range m).foldl (window_step imu start_ind) s).trace =
      s.trace ++ (List.range m).map (fun j : Nat => Event.load j (start_ind + j)) := by
  induction m with
  | zero => simp
  | succ m ih =>
    rw [List.range_succ, List.foldl_append]
    simp [window_step, ih]

theorem window_fold_congr (imu1 imu2 : imu_t R) (start_ind : Int) (m : Nat) (s : Frame R)
    (h : ∀ j : Nat, j < m → agree_at imu1 imu2 (start_ind + j)) :
    (List.range m).foldl (window_step imu2 start_ind) s =
      (List.range m).foldl (window_step imu1 start_ind) s := by
  induction m with
  | zero => rfl
  | succ m ih =>
    rw [List.range_succ, List.foldl_append, List.foldl_append,
      ih (fun j hj => h j (by omega))]
    obtain ⟨_, h2, h3⟩ := h m (by omega)
    simp only [List.foldl_cons, List.foldl_nil, window_step, h2, h3]

theorem step_ecef_accessed (ins : Ins R) (imu : imu_t R) (N : Int) (dt : R) (nSample : Int)
    (s : Frame R) (i : Int) :
    accessed (step_ecef ins imu N dt nSample s i).trace =
      accessed s.trace ++
        ((List.range N.natAbs).map (fun j : Nat => i - N.natAbs + 1 + j) ++ [i]) := by
  have hw := window_fold_trace imu (i - N.natAbs + 1) N.natAbs s
  simp only [step_ecef]
  generalize (List.range N.natAbs).foldl (window_step imu (i - N.natAbs + 1)) s = s1 at hw
  simp only [accessed, hw, List.filterMap_append, List.append_assoc]
  rw [filterMap_map_some Event.index
    (fun j : Nat => (Event.load j (i - (N.natAbs : Int) + 1 + j) : Event R))
    (fun j : Nat => i - (N.natAbs : Int) + 1 + j) (fun _ => rfl)]
  simp [Event.index]

theorem step_ecef_congr_on (ins : Ins R) (imu1 imu2 : imu_t R) (N : Int) (dt : R)
    (nSample : Int) (s : Frame R) (i : Int)
    (h : ∀ idx ∈ accessed (step_ecef ins imu1 N dt nSample s i).trace,
      agree_at imu1 imu2 idx) :
    step_ecef ins imu2 N dt nSample s i = step_ecef ins imu1 N dt nSample s i := by
  rw [step_ecef_accessed] at h
  have hw := window_fold_congr imu1 imu2 (i - N.natAbs + 1) N.natAbs s (fun j hj =>
    h _ (by
      simp only [List.mem_append, List.mem_map, List.mem_range, List.mem_singleton]
      exact Or.inr (Or.inl ⟨j, hj, rfl⟩)))
  have hi : agree_at imu1 imu2 i := h i (by simp)
  simp only [step_ecef, hw, hi.1]

theorem prelude_step_accessed (ins : Ins R) (imu : imu_t R) (dt : R) (s : Frame R) (i : Nat) :
    accessed (prelude_step ins imu dt s i).trace = accessed s.trace ++ [(i : Int), (i : Int)] := by
  simp [prelude_step, accessed, List.filterMap_append, Event.index]

theorem prelude_step_congr_on (ins : Ins R) (imu1 imu2 : imu_t R) (dt : R) (s : Frame R)
    (i : Nat) (h : ∀ idx ∈ accessed (prelude_step ins imu1 dt s i).trace,
      agree_at imu1 imu2 idx) :
    prelude_step ins imu2 dt s i = prelude_step ins imu1 dt s i := by
  rw [prelude_step_accessed] at h
  obtain ⟨h1, h2, h3⟩ := h i (by simp)
  simp only [prelude_step, h1, h2, h3]

theorem main_loop_accessed_mono (ins : Ins R) (imu : imu_t R) (N : Int) (dt : R)
    (nSample : Int) :
    ∀ (fuel : Nat) (i : Int) (s : Frame R) (idx : Int), idx ∈ accessed s.trace →
      idx ∈ accessed (main_loop ins imu N dt nSample fuel i s).2.trace := by
  intro fuel
  induction fuel with
  | zero => intro i s idx h; exact h
  | succ fuel ih =>
    intro i s idx h
    rw [main_loop]
    split
    · apply ih
      rw [step_ecef_accessed]
      exact List.mem_append_left _ h
    · exact h

theorem main_loop_congr_on (ins : Ins R) (imu1 imu2 : imu_t R) (hn : imu1.n = imu2.n)
    (N : Int) (dt : R) (nSample : Int) :
    ∀ (fuel : Nat) (i : Int) (s : Frame R),
      (∀ idx ∈ accessed (main_loop ins imu1 N dt nSample fuel i s).2.trace,
        agree_at imu1 imu2 idx) →
      main_loop ins imu2 N dt nSample fuel i s = main_loop ins imu1 N dt nSample fuel i s := by
  intro fuel
  induction fuel with
  | zero => intro i s _; rfl
  | succ fuel ih =>
    intro i s h
    rw [main_loop, main_loop, ← hn]
    rw [main_loop] at h
    split
    · rename_i hlt
      rw [if_pos hlt] at h
      have hstep : step_ecef ins imu2 N dt nSample s i = step_ecef ins imu1 N dt nSample s i :=
        step_ecef_congr_on ins imu1 imu2 N dt nSample s i (fun idx hidx =>
          h idx (main_loop_accessed_mono ins imu1 N dt nSample fuel _ _ idx hidx))
      rw [hstep]
      exact ih _ _ h
    · rfl

theorem foldl_prelude_accessed_mono (ins : Ins R) (imu : imu_t R) (dt : R) :
    ∀ (l : List Nat) (s : Frame R) (idx : Int), idx ∈ accessed s.trace →
      idx ∈ accessed (l.foldl (prelude_step ins imu dt) s).trace := by
  intro l
  induction l with
  | nil => intro s idx h; exact h
  | cons a l ih =>
    intro s idx h
    rw [List.foldl_cons]
    apply ih
    rw [prelude_step_accessed]
    exact List.mem_append_left _ h

theorem foldl_prelude_congr_on (ins : Ins R) (imu1 imu2 : imu_t R) (dt : R) :
    ∀ (l : List Nat) (s : Frame R),
      (∀ idx ∈ accessed (l.foldl (prelude_step ins imu1 dt) s).trace,
        agree_at imu1 imu2 idx) →
      l.foldl (prelude_step ins imu2 dt) s = l.foldl (prelude_step ins imu1 dt) s := by
  intro l
  induction l with
  | nil => intro s _; rfl
  | cons a l ih =>
    intro s h
    rw [List.foldl_cons, List.foldl_cons] at *
    have hstep : prelude_step ins imu2 dt s a = prelude_step ins imu1 dt s a :=
      prelude_step_congr_on ins imu1 imu2 dt s a (fun idx hidx =>
        h idx (foldl_prelude_accessed_mono ins imu1 dt l _ idx hidx))
    rw [hstep]
    exact ih _ h

theorem prelude_loop_accessed_mono (ins : Ins R) (imu : imu_t R) (N : Int) (s : Frame R)
    (idx : Int) (h : idx ∈ accessed s.trace) :
    idx ∈ accessed (prelude_loop ins imu N s).trace := by
  unfold prelude_loop
  split
  · exact foldl_prelude_accessed_mono ins imu _ _ s idx h
  · exact h

theorem nav_ins_ecef_congr_on_reads (ins : Ins R) (imu1 imu2 : imu_t R) (N : Int)
    (r v : v3_t R) (q : quat_t R) (stack : Stack R) (fuel : Nat) (hn : imu1.n = imu2.n)
    (h : ∀ idx ∈ accessed (nav_ins_ecef ins imu1 N r v q stack fuel).2.trace,
      agree_at imu1 imu2 idx) :
    nav_ins_ecef ins imu2 N r v q stack fuel = nav_ins_ecef ins imu1 N r v q stack fuel := by
  have hmono : ∀ idx ∈ accessed (prelude_loop ins imu1 N (entry_frame r v q stack)).trace,
      agree_at imu1 imu2 idx := fun idx hidx =>
    h idx (main_loop_accessed_mono ins imu1 N _ _ fuel _ _ idx hidx)
  have h1 : agree_at imu1 imu2 1 :=
    hmono 1 (prelude_loop_accessed_mono ins imu1 N _ 1
      (by simp [entry_frame, accessed, Event.index]))
  have h0 : agree_at imu1 imu2 0 :=
    hmono 0 (prelude_loop_accessed_mono ins imu1 N _ 0
      (by simp [entry_frame, accessed, Event.index]))
  have hdt : nav_dt imu2 = nav_dt imu1 := by
    simp only [nav_dt, h1.1, h0.1]
  have hpre : prelude_loop ins imu2 N (entry_frame r v q stack) =
      prelude_loop ins imu1 N (entry_frame r v q stack) := by
    unfold prelude_loop at hmono ⊢
    split
    · rename_i hneg
      rw [if_pos hneg] at hmono
      rw [hdt]
      exact foldl_prelude_congr_on ins imu1 imu2 _ _ _ hmono
    · rfl
  unfold nav_ins_ecef
  rw [hdt, hpre]
  exact main_loop_congr_on ins imu1 imu2 hn N _ _ fuel _ _ h

theorem nav_ins_ecef_congr_on_samples (ins : Ins R) (imu1 imu2 : imu_t R) (N : Int)
    (r v : v3_t R) (q : quat_t R) (stack : Stack R) (fuel : Nat) (hn : imu1.n = imu2.n)
    (hN : N ≠ 0) (hN5 : N.natAbs ≤ 5) (hn2 : 2 ≤ imu1.n)
    (hnN : (N.natAbs : Int) - 1 ≤ imu1.n) (hf : main_count N imu1.n < fuel)
    (h : ∀ i : Int, 0 ≤ i → i < imu1.n → agree_at imu1 imu2 i) :
    nav_ins_ecef ins imu2 N r v q stack fuel = nav_ins_ecef ins imu1 N r v q stack fuel := by
  apply nav_ins_ecef_congr_on_reads ins imu1 imu2 N r v q stack fuel hn
  intro idx hidx
  rw [(nav_ins_ecef_run ins imu1 N r v q stack fuel hN hN5 hf).2.1] at hidx
  obtain ⟨h0, h1⟩ := accessed_in_bounds ins imu1 N r v q stack hN hn2 hnN idx hidx
  exact h idx h0 h1

/-! ## C1: the state is threaded through the calls -/

/-- C8. For `1 ≤ N ≤ 5` and `n ≥ 2` the run ends after exactly `⌊n / N⌋` mechanization
steps. Step `k` calls `multisample` on buffers whose first `N` cells hold samples
`k*N .. k*N + N - 1`, and advances the state by the interval `dt * N` with the increments
`multisample` returned. The window copy reads the samples `0 .. N*⌊n/N⌋ - 1` once each, in
order, sample `x` into cell `x mod N`. The intervals add up to `dt * N * ⌊n/N⌋`. -/
theorem nav_ins_ecef_positive_order (ins : Ins R) (imu : imu_t R) (N : Int) (r v : v3_t R)
    (q : quat_t R) (stack : Stack R) (fuel : Nat) (hN1 : 1 ≤ N) (hN5 : N ≤ 5)
    (hn : 2 ≤ imu.n) (hf : (imu.n / N).toNat < fuel) :
    (nav_ins_ecef ins imu N r v q stack fuel).1 = true ∧
      nav_args (nav_ins_ecef ins imu N r v q stack fuel).2.trace =
        (List.range (imu.n / N).toNat).map (fun k : Nat =>
          (nav_dt imu * (N : R),
            ins.multisample (gyro_window imu stack N (k * N))
              (accel_window imu stack N (k * N)) N)) ∧
      ms_calls (nav_ins_ecef ins imu N r v q stack fuel).2.trace =
        (List.range (imu.n / N).toNat).map (fun k : Nat =>
          (gyro_window imu stack N (k * N), accel_window imu stack N (k * N), N)) ∧
      (∀ (k : Int) (j : Nat), j < N.natAbs →
        (gyro_window imu stack N k)[j]? = some (imu.data (k + j)).gryo ∧
          (accel_window imu stack N k)[j]? = some (imu.data (k + j)).accel) ∧
      loads (nav_ins_ecef ins imu N r v q stack fuel).2.trace =
        (List.range ((imu.n / N).toNat * N.natAbs)).map
          (fun x : Nat => (x % N.natAbs, (x : Int))) ∧
      ((nav_args (nav_ins_ecef ins imu N r v q stack fuel).2.trace).map Prod.fst).sum =
        nav_dt imu * (N : R) * ((imu.n / N : Int) : R) := by
  have hN0 : N ≠ 0 := by omega
  have hpos : 0 < N := by omega
  have hneg : ¬ N < 0 := by omega
  have hab : (N.natAbs : Int) = N := Int.natAbs_of_nonneg hpos.le
  have habs5 : N.natAbs ≤ 5 := by omega
  have hcnt : main_count N imu.n = (imu.n / N).toNat := by simp [main_count, hneg]
  obtain ⟨h1, h2, _⟩ :=
    nav_ins_ecef_run ins imu N r v q stack fuel hN0 habs5 (by rw [hcnt]; exact hf)
  have hpre : prelude_indices N = [] := by simp [prelude_indices, hneg]
  have hnS : nSample_of N = N := by simp [nSample_of, hneg]
  have hstart : ∀ k : Nat, N - 1 + (k : Int) * N - (N.natAbs : Int) + 1 = (k : Int) * N := by
    intro k; rw [hab]; ring
  have hargs : nav_args (nav_ins_ecef ins imu N r v q stack fuel).2.trace =
      (List.range (imu.n / N).toNat).map (fun k : Nat =>
        (nav_dt imu * (N : R),
          ins.multisample (gyro_window imu stack N (k * N))
            (accel_window imu stack N (k * N)) N)) := by
    rw [h2, nav_args_run_trace, hpre, main_indices_pos N imu.n hpos, hnS, List.map_map]
    simp only [List.map_nil, List.nil_append]
    apply List.map_congr_left
    intro k _
    simp only [Function.comp, hstart]
  refine ⟨h1, hargs, ?_, ?_, ?_, ?_⟩
  · rw [h2, ms_calls_run_trace, main_indices_pos N imu.n hpos, List.map_map]
    apply List.map_congr_left
    intro k _
    simp only [Function.comp, hstart]
  · intro k j hj
    exact window_cell imu stack N k j hj
  · rw [h2, loads_run_trace, main_indices_pos N imu.n hpos, range_mul_flatMap,
      List.flatMap_map, List.map_flatMap]
    apply List.flatMap_congr
    intro k _
    rw [List.map_map]
    apply List.map_congr_left
    intro j hj
    have hj2 : j < N.natAbs := List.mem_range.mp hj
    simp only [Function.comp, hstart]
    refine Prod.ext ?_ ?_
    · simp [Nat.mul_add_mod_of_lt hj2]
    · simp only [Nat.cast_add, Nat.cast_mul, hab]
  · rw [hargs, List.map_map]
    have hq : (((imu.n / N).toNat : Nat) : R) = ((imu.n / N : Int) : R) := by
      have : 0 ≤ imu.n / N := Int.ediv_nonneg (by omega) hpos.le
      rw [← Int.cast_natCast, Int.toNat_of_nonneg this]
    have hconst : ((Prod.fst : R × v3_t R × v3_t R → R) ∘ fun k : Nat =>
        (nav_dt imu * (N : R),
          ins.multisample (gyro_window imu stack N (k * N))
            (accel_window imu stack N (k * N)) N)) =
        Function.const Nat (nav_dt imu * (N : R)) := by
      funext k; rfl
    rw [hconst, List.map_const, List.sum_replicate, List.length_range, nsmul_eq_mul, hq]
    ring

/-- Witness of C8 at `N = 2`, the concrete dataset with 5 samples, fuel 3. -/
theorem nav_ins_ecef_positive_order_witness :
    (nav_ins_ecef test_ins (test_imu 5) 2 test_r test_v test_q test_stack 3).1 = true ∧
      nav_args (nav_ins_ecef test_ins (test_imu 5) 2 test_r test_v test_q test_stack 3).2.trace =
        (List.range ((test_imu 5).n / 2).toNat).map (fun k : Nat =>
          (nav_dt (test_imu 5) * ((2 : Int) : ℚ),
            test_ins.multisample (gyro_window (test_imu 5) test_stack 2 (k * 2))
              (accel_window (test_imu 5) test_stack 2 (k * 2)) 2)) ∧
      ms_calls (nav_ins_ecef test_ins (test_imu 5) 2 test_r test_v test_q test_stack 3).2.trace =
        (List.range ((test_imu 5).n / 2).toNat).map (fun k : Nat =>
          (gyro_window (test_imu 5) test_stack 2 (k * 2),
            accel_window (test_imu 5) test_stack 2 (k * 2), 2)) ∧
      (∀ (k : Int) (j : Nat), j < (2 : Int).natAbs →
        (gyro_window (test_imu 5) test_stack 2 k)[j]? = some ((test_imu 5).data (k + j)).gryo ∧
          (accel_window (test_imu 5) test_stack 2 k)[j]? =
            some ((test_imu 5).data (k + j)).accel) ∧
      loads (nav_ins_ecef test_ins (test_imu 5) 2 test_r test_v test_q test_stack 3).2.trace =
        (List.range (((test_imu 5).n / 2).toNat * (2 : Int).natAbs)).map
          (fun x : Nat => (x % (2 : Int).natAbs, (x : Int))) ∧
      ((nav_args
          (nav_ins_ecef test_ins (test_imu 5) 2 test_r test_v test_q test_stack 3).2.trace).map
        Prod.fst).sum =
        nav_dt (test_imu 5) * ((2 : Int) : ℚ) * (((test_imu 5).n / 2 : Int) : ℚ) :=
  nav_ins_ecef_positive_order test_ins (test_imu 5) 2 test_r test_v test_q test_stack 3
    (by decide) (by decide) (by decide) (by decide)

/-! ## C9: negative order, sliding windows -/

/-- C9. For `N < 0` with `1 ≤ |N| ≤ 5` and `n ≥ max(2, |N|)` the run ends after exactly `n`
mechanization steps, all of interval `dt`: first one step for each sample
`i = 0 .. |N| - 2` with that sample's raw gyro and accel increments, and then, for every
sample index `i = |N| - 1 .. n - 1` in increasing order (`i = |N| - 1 + k`), one step with
the increments `multisample` returns for buffers whose first `|N|` cells hold the samples
`i - |N| + 1 .. i` (`k .. k + |N| - 1`). Every sample read has its index in `[0, n)`. -/
theorem nav_ins_ecef_negative_order (ins : Ins R) (imu : imu_t R) (N : Int) (r v : v3_t R)
    (q : quat_t R) (stack : Stack R) (fuel : Nat) (hN : N < 0) (hN5 : N.natAbs ≤ 5)
    (hn2 : 2 ≤ imu.n) (hnN : (N.natAbs : Int) ≤ imu.n)
    (hf : (imu.n - N.natAbs + 1).toNat < fuel) :
    (nav_ins_ecef ins imu N r v q stack fuel).1 = true ∧
      nav_args (nav_ins_ecef ins imu N r v q stack fuel).2.trace =
        (List.range (N.natAbs - 1)).map (fun i : Nat =>
            (nav_dt imu, (imu.data i).gryo, (imu.data i).accel)) ++
          (List.range (imu.n - N.natAbs + 1).toNat).map (fun k : Nat =>
            (nav_dt imu,
              ins.multisample (gyro_window imu stack N k) (accel_window imu stack N k) N)) ∧
      ms_calls (nav_ins_ecef ins imu N r v q stack fuel).2.trace =
        (List.range (imu.n - N.natAbs + 1).toNat).map (fun k : Nat =>
          (gyro_window imu stack N k, accel_window imu stack N k, N)) ∧
      (∀ (k : Int) (j : Nat), j < N.natAbs →
        (gyro_window imu stack N k)[j]? = some (imu.data (k + j)).gryo ∧
          (accel_window imu stack N k)[j]? = some (imu.data (k + j)).accel) ∧
      ((nav_args (nav_ins_ecef ins imu N r v q stack fuel).2.trace).length : Int) = imu.n ∧
      ∀ idx ∈ accessed (nav_ins_ecef ins imu N r v q stack fuel).2.trace,
        0 ≤ idx ∧ idx < imu.n := by
  have hN0 : N ≠ 0 := by omega
  have hcnt : main_count N imu.n = (imu.n - N.natAbs + 1).toNat := by simp [main_count, hN]
  obtain ⟨h1, h2, _⟩ :=
    nav_ins_ecef_run ins imu N r v q stack fuel hN0 hN5 (by rw [hcnt]; exact hf)
  have hpre : prelude_indices N = List.range (N.natAbs - 1) := by simp [prelude_indices, hN]
  have hnS : ((nSample_of N : Int) : R) = 1 := by simp [nSample_of, hN]
  have hstart : ∀ k : Nat, (N.natAbs : Int) - 1 + (k : Int) - (N.natAbs : Int) + 1 = (k : Int) := by
    intro k; ring
  have hargs : nav_args (nav_ins_ecef ins imu N r v q stack fuel).2.trace =
      (List.range (N.natAbs - 1)).map (fun i : Nat =>
          (nav_dt imu, (imu.data i).gryo, (imu.data i).accel)) ++
        (List.range (imu.n - N.natAbs + 1).toNat).map (fun k : Nat =>
          (nav_dt imu,
            ins.multisample (gyro_window imu stack N k) (accel_window imu stack N k) N)) := by
    rw [h2, nav_args_run_trace, hpre, main_indices_neg N imu.n hN, hnS, List.map_map]
    congr 1
    apply List.map_congr_left
    intro k _
    simp only [Function.comp, hstart, mul_one]
  refine ⟨h1, hargs, ?_, ?_, ?_, ?_⟩
  · rw [h2, ms_calls_run_trace, main_indices_neg N imu.n hN, List.map_map]
    apply List.map_congr_left
    intro k _
    simp only [Function.comp, hstart]
  · intro k j hj
    exact window_cell imu stack N k j hj
  · rw [hargs]
    simp only [List.length_append, List.length_map, List.length_range]
    omega
  · rw [h2]
    exact accessed_in_bounds ins imu N r v q stack hN0 hn2 (by omega)

/-- Witness of C9 at `N = -2`, the concrete dataset with 4 samples, fuel 4. -/
theorem nav_ins_ecef_negative_order_witness :
    (nav_ins_ecef test_ins (test_imu 4) (-2) test_r test_v test_q test_stack 4).1 = true ∧
      nav_args
          (nav_ins_ecef test_ins (test_imu 4) (-2) test_r test_v test_q test_stack 4).2.trace =
        (List.range ((-2 : Int).natAbs - 1)).map (fun i : Nat =>
            (nav_dt (test_imu 4), ((test_imu 4).data i).gryo, ((test_imu 4).data i).accel)) ++
          (List.range ((test_imu 4).n - (-2 : Int).natAbs + 1).toNat).map (fun k : Nat =>
            (nav_dt (test_imu 4),
              test_ins.multisample (gyro_window (test_imu 4) test_stack (-2) k)
                (accel_window (test_imu 4) test_stack (-2) k) (-2))) ∧
      ms_calls
          (nav_ins_ecef test_ins (test_imu 4) (-2) test_r test_v test_q test_stack 4).2.trace =
        (List.range ((test_imu 4).n - (-2 : Int).natAbs + 1).toNat).map (fun k : Nat =>
          (gyro_window (test_imu 4) test_stack (-2) k,
            accel_window (test_imu 4) test_stack (-2) k, -2)) ∧
      (∀ (k : Int) (j : Nat), j < (-2 : Int).natAbs →
        (gyro_window (test_imu 4) test_stack (-2) k)[j]? =
            some ((test_imu 4).data (k + j)).gryo ∧
          (accel_window (test_imu 4) test_stack (-2) k)[j]? =
            some ((test_imu 4).data (k + j)).accel) ∧
      ((nav_args
          (nav_ins_ecef test_ins (test_imu 4) (-2) test_r test_v test_q
            test_stack 4).2.trace).length : Int) = (test_imu 4).n ∧
      ∀ idx ∈ accessed
          (nav_ins_ecef test_ins (test_imu 4) (-2) test_r test_v test_q test_stack 4).2.trace,
        0 ≤ idx ∧ idx < (test_imu 4).n :=
  nav_ins_ecef_negative_order test_ins (test_imu 4) (-2) test_r test_v test_q test_stack 4
    (by decide) (by decide) (by decide) (by decide) (by decide)

/-! ## C3: the windows handed to `multisample` -/

/-- C3. For `1 ≤ |N| ≤ 5` and every dataset the run ends, and every call of `multisample`
in it gets `N` and two 5-cell buffers whose first `|N|` cells hold the gyro and accel
increments of `|N|` consecutive samples `start .. start + |N| - 1`, all inside `[0, n)`;
for `N > 0` the window starts at a multiple of `N`. Every store of the window copy goes
to a cell `j < |N| ≤ 5` and reads a sample inside `[0, n)`; for `N > 0` it reads below
`N * ⌊n / N⌋`, so the trailing `n mod N` samples are never copied. -/
theorem multisample_windows (ins : Ins R) (imu : imu_t R) (N : Int) (r v : v3_t R)
    (q : quat_t R) (stack : Stack R) (fuel : Nat) (hN1 : 1 ≤ N.natAbs) (hN5 : N.natAbs ≤ 5)
    (hf : main_count N imu.n < fuel) :
    (nav_ins_ecef ins imu N r v q stack fuel).1 = true ∧
      (∀ (dl vl : List (v3_t R)) (M : Int),
        (dl, vl, M) ∈ ms_calls (nav_ins_ecef ins imu N r v q stack fuel).2.trace →
          M = N ∧ dl.length = 5 ∧ vl.length = 5 ∧
            ∃ start : Int, 0 ≤ start ∧ start + N.natAbs ≤ imu.n ∧
              (0 < N → ∃ k : Nat, start = k * N) ∧
              ∀ j : Nat, j < N.natAbs →
                dl[j]? = some (imu.data (start + j)).gryo ∧
                  vl[j]? = some (imu.data (start + j)).accel) ∧
      (∀ (j : Nat) (idx : Int),
        (j, idx) ∈ loads (nav_ins_ecef ins imu N r v q stack fuel).2.trace →
          j < N.natAbs ∧ j < 5 ∧ 0 ≤ idx ∧ idx < imu.n ∧ (0 < N → idx < N * (imu.n / N))) := by
  have hN0 : N ≠ 0 := by omega
  obtain ⟨h1, h2, _⟩ := nav_ins_ecef_run ins imu N r v q stack fuel hN0 hN5 hf
  have hdiv : ∀ i ∈ main_indices N imu.n, 0 < N →
      ∃ k : Nat, i - (N.natAbs : Int) + 1 = k * N ∧ ((k : Int) + 1) * N ≤ N * (imu.n / N) := by
    intro i hi hpos
    have hab : (N.natAbs : Int) = N := Int.natAbs_of_nonneg hpos.le
    rw [main_indices_pos N imu.n hpos] at hi
    obtain ⟨k, hk, rfl⟩ := List.mem_map.mp hi
    have hk2 : k < (imu.n / N).toNat := List.mem_range.mp hk
    refine ⟨k, by rw [hab]; ring, ?_⟩
    have hk3 : (k : Int) + 1 ≤ imu.n / N := by omega
    have := mul_le_mul_of_nonneg_left hk3 hpos.le
    linarith
  refine ⟨h1, ?_, ?_⟩
  · intro dl vl M hmem
    rw [h2, ms_calls_run_trace] at hmem
    obtain ⟨i, hi, heq⟩ := List.mem_map.mp hmem
    obtain ⟨hlo, hhi⟩ := mem_main_indices N imu.n i hN0 hi
    simp only [Prod.mk.injEq] at heq
    obtain ⟨rfl, rfl, rfl⟩ := heq
    obtain ⟨hl1, hl2⟩ := window_length imu stack N (i - N.natAbs + 1) hN5
    refine ⟨rfl, hl1, hl2, i - N.natAbs + 1, by omega, by omega, ?_, ?_⟩
    · intro hpos
      obtain ⟨k, hk, _⟩ := hdiv i hi hpos
      exact ⟨k, hk⟩
    · intro j hj
      exact window_cell imu stack N _ j hj
  · intro j idx hmem
    rw [h2, loads_run_trace] at hmem
    obtain ⟨i, hi, hj⟩ := List.mem_flatMap.mp hmem
    obtain ⟨j2, hj2, heq⟩ := List.mem_map.mp hj
    have hj3 : j2 < N.natAbs := List.mem_range.mp hj2
    simp only [Prod.mk.injEq] at heq
    obtain ⟨rfl, rfl⟩ := heq
    obtain ⟨hlo, hhi⟩ := mem_main_indices N imu.n i hN0 hi
    refine ⟨hj3, by omega, by omega, by omega, ?_⟩
    intro hpos
    obtain ⟨k, hk, hle⟩ := hdiv i hi hpos
    have hab : (N.natAbs : Int) = N := Int.natAbs_of_nonneg hpos.le
    rw [hk]
    have : (j2 : Int) < N := by omega
    linarith

/-- Witness of C3 at `N = 2`, the concrete dataset with 5 samples, fuel 3. -/
theorem multisample_windows_witness :
    (nav_ins_ecef test_ins (test_imu 5) 2 test_r test_v test_q test_stack 3).1 = true ∧
      (∀ (dl vl : List (v3_t ℚ)) (M : Int),
        (dl, vl, M) ∈
            ms_calls
              (nav_ins_ecef test_ins (test_imu 5) 2 test_r test_v test_q test_stack 3).2.trace →
          M = 2 ∧ dl.length = 5 ∧ vl.length = 5 ∧
            ∃ start : Int, 0 ≤ start ∧ start + (2 : Int).natAbs ≤ (test_imu 5).n ∧
              ((0 : Int) < 2 → ∃ k : Nat, start = k * 2) ∧
              ∀ j : Nat, j < (2 : Int).natAbs →
                dl[j]? = some ((test_imu 5).data (start + j)).gryo ∧
                  vl[j]? = some ((test_imu 5).data (start + j)).accel) ∧
      (∀ (j : Nat) (idx : Int),
        (j, idx) ∈
            loads
              (nav_ins_ecef test_ins (test_imu 5) 2 test_r test_v test_q test_stack 3).2.trace →
          j < (2 : Int).natAbs ∧ j < 5 ∧ 0 ≤ idx ∧ idx < (test_imu 5).n ∧
            ((0 : Int) < 2 → idx < 2 * ((test_imu 5).n / 2))) :=
  multisample_windows test_ins (test_imu 5) 2 test_r test_v test_q test_stack 3
    (by decide) (by decide) (by decide)

/-! ## C5: one output line per call -/

/-- C5. For `N ≠ 0`, `|N| ≤ 5` and `n ≥ max(2, |N|)` the run ends; it makes one call of
`nav_equations_ecef` per planned step and emits as many output lines; in program order
each call is directly followed by its line, and the line of the step on sample `i` (the
last sample of the interval) carries `imu->data[i].time.sec` and values computed from the
state `(r, v, q)` that this call returned (`ecef_line` in the first loop, `ned_line` in
the second). Every sample read has its index in `[0, n)`. -/
theorem one_record_per_call (ins : Ins R) (imu : imu_t R) (N : Int) (r v : v3_t R)
    (q : quat_t R) (stack : Stack R) (fuel : Nat) (hN : N ≠ 0) (hN5 : N.natAbs ≤ 5)
    (hn2 : 2 ≤ imu.n) (hnN : (N.natAbs : Int) ≤ imu.n) (hf : main_count N imu.n < fuel) :
    (nav_ins_ecef ins imu N r v q stack fuel).1 = true ∧
      (nav_calls (nav_ins_ecef ins imu N r v q stack fuel).2.trace).length =
        (step_plan N imu.n).length ∧
      (records (nav_ins_ecef ins imu N r v q stack fuel).2.trace).length =
        (nav_calls (nav_ins_ecef ins imu N r v q stack fuel).2.trace).length ∧
      nav_records (nav_ins_ecef ins imu N r v q stack fuel).2.trace =
        (List.zip (step_plan N imu.n)
          (nav_calls (nav_ins_ecef ins imu N r v q stack fuel).2.trace)).flatMap
          (call_and_line ins imu) ∧
      ∀ idx ∈ accessed (nav_ins_ecef ins imu N r v q stack fuel).2.trace,
        0 ≤ idx ∧ idx < imu.n := by
  obtain ⟨h1, h2, _⟩ := nav_ins_ecef_run ins imu N r v q stack fuel hN hN5 hf
  obtain ⟨p1, p2, p3⟩ := nav_records_run_trace ins imu N r v q stack
  rw [h2]
  exact ⟨h1, p1, by rw [p2, p1], p3,
    accessed_in_bounds ins imu N r v q stack hN hn2 (by omega)⟩

/-- Witness of C5 at `N = -2`, the concrete dataset with 4 samples, fuel 4. -/
theorem one_record_per_call_witness :
    (nav_ins_ecef test_ins (test_imu 4) (-2) test_r test_v test_q test_stack 4).1 = true ∧
      (nav_calls
          (nav_ins_ecef test_ins (test_imu 4) (-2) test_r test_v test_q
            test_stack 4).2.trace).length =
        (step_plan (-2) (test_imu 4).n).length ∧
      (records
          (nav_ins_ecef test_ins (test_imu 4) (-2) test_r test_v test_q
            test_stack 4).2.trace).length =
        (nav_calls
          (nav_ins_ecef test_ins (test_imu 4) (-2) test_r test_v test_q
            test_stack 4).2.trace).length ∧
      nav_records
          (nav_ins_ecef test_ins (test_imu 4) (-2) test_r test_v test_q test_stack 4).2.trace =
        (List.zip (step_plan (-2) (test_imu 4).n)
          (nav_calls
            (nav_ins_ecef test_ins (test_imu 4) (-2) test_r test_v test_q
              test_stack 4).2.trace)).flatMap
          (call_and_line test_ins (test_imu 4)) ∧
      ∀ idx ∈ accessed
          (nav_ins_ecef test_ins (test_imu 4) (-2) test_r test_v test_q test_stack 4).2.trace,
        0 ≤ idx ∧ idx < (test_imu 4).n :=
  one_record_per_call test_ins (test_imu 4) (-2) test_r test_v test_q test_stack 4
    (by decide) (by decide) (by decide) (by decide) (by decide)

/-! ## C4: datasets shorter than the window -/

/-- C4, as stated, fails: with `N = -3` and the concrete dataset of 2 samples (fewer than
`|N| = 3`) the run performs two mechanization steps and emits two output lines, all reads
being inside `[0, 2)`. -/
theorem short_dataset_steps_anyway :
    2 ≤ (-3 : Int).natAbs ∧ (-3 : Int).natAbs ≤ 5 ∧ (test_imu 2).n < (-3 : Int).natAbs ∧
      (nav_ins_ecef test_ins (test_imu 2) (-3) test_r test_v test_q test_stack 1).1 = true ∧
      (nav_calls
        (nav_ins_ecef test_ins (test_imu 2) (-3) test_r test_v test_q
          test_stack 1).2.trace).length = 2 ∧
      (records
        (nav_ins_ecef test_ins (test_imu 2) (-3) test_r test_v test_q
          test_stack 1).2.trace).length = 2 ∧
      accessed
        (nav_ins_ecef test_ins (test_imu 2) (-3) test_r test_v test_q test_stack 1).2.trace =
          [1, 0, 0, 0, 1, 1] := by
  decide

/-- C4, amended. For `2 ≤ |N| ≤ 5` and a dataset with `n` samples, `2 ≤ n < |N|` and, when
`N < 0`, `n ≥ |N| - 1` (so `n = |N| - 1`), the run ends without any call of `multisample`
and without any window copy, and every sample it reads has its index in `[0, n)`. For
`N > 0` it does nothing but the two reads `imu->data[1]`, `imu->data[0]` of `dt`: no
mechanization step, no output line. For `N < 0` it performs the `|N| - 1 = n`
single-sample steps of the first loop, on samples `0 .. n - 1` with interval `dt`, and
emits one output line for each. -/
theorem short_dataset_no_window (ins : Ins R) (imu : imu_t R) (N : Int) (r v : v3_t R)
    (q : quat_t R) (stack : Stack R) (fuel : Nat) (hN2 : 2 ≤ N.natAbs) (hN5 : N.natAbs ≤ 5)
    (hn : imu.n < N.natAbs) (hn2 : 2 ≤ imu.n) (hnN : N < 0 → (N.natAbs : Int) - 1 ≤ imu.n)
    (hf : 0 < fuel) :
    (nav_ins_ecef ins imu N r v q stack fuel).1 = true ∧
      ms_calls (nav_ins_ecef ins imu N r v q stack fuel).2.trace = [] ∧
      loads (nav_ins_ecef ins imu N r v q stack fuel).2.trace = [] ∧
      (∀ idx ∈ accessed (nav_ins_ecef ins imu N r v q stack fuel).2.trace,
        0 ≤ idx ∧ idx < imu.n) ∧
      (0 < N →
        (nav_ins_ecef ins imu N r v q stack fuel).2.trace = [Event.read 1, Event.read 0]) ∧
      (N < 0 →
        (N.natAbs : Int) - 1 = imu.n ∧
          nav_args (nav_ins_ecef ins imu N r v q stack fuel).2.trace =
            (List.range (N.natAbs - 1)).map (fun i : Nat =>
              (nav_dt imu, (imu.data i).gryo, (imu.data i).accel)) ∧
          (records (nav_ins_ecef ins imu N r v q stack fuel).2.trace).length =
            N.natAbs - 1) := by
  have hN0 : N ≠ 0 := by omega
  have hcnt : main_count N imu.n = 0 := by
    unfold main_count
    split
    · omega
    · have hpos : 0 < N := by omega
      have : imu.n / N < 1 := Int.ediv_lt_of_lt_mul hpos (by omega)
      omega
  have hmain : main_indices N imu.n = [] := by simp [main_indices, hcnt]
  obtain ⟨h1, h2, _⟩ :=
    nav_ins_ecef_run ins imu N r v q stack fuel hN0 hN5 (by rw [hcnt]; exact hf)
  have htr : 0 < N →
      (nav_ins_ecef ins imu N r v q stack fuel).2.trace = [Event.read 1, Event.read 0] := by
    intro hpos
    have hpre : prelude_indices N = [] := by
      unfold prelude_indices
      split
      · omega
      · rfl
    rw [h2]
    simp [run_trace, hpre, hmain, run_events]
  refine ⟨h1, ?_, ?_, ?_, htr, ?_⟩
  · rw [h2, ms_calls_run_trace, hmain]; rfl
  · rw [h2, loads_run_trace, hmain]; rfl
  · by_cases hneg : N < 0
    · rw [h2]
      exact accessed_in_bounds ins imu N r v q stack hN0 hn2 (hnN hneg)
    · intro idx hidx
      rw [htr (by omega)] at hidx
      simp only [accessed, Event.index, List.filterMap_cons, List.filterMap_nil,
        List.mem_cons, List.not_mem_nil, or_false] at hidx
      rcases hidx with h | h <;> omega
  · intro hneg
    have hpre : prelude_indices N = List.range (N.natAbs - 1) := by
      simp [prelude_indices, hneg]
    refine ⟨by have := hnN hneg; omega, ?_, ?_⟩
    · rw [h2, nav_args_run_trace, hpre, hmain]; simp
    · obtain ⟨_, p2, _⟩ := nav_records_run_trace ins imu N r v q stack
      rw [h2, p2]
      simp [step_plan, hpre, hmain]

/-- Witness of the amended C4 at `N = -3`, the concrete dataset with 2 samples, fuel 1. -/
theorem short_dataset_no_window_witness :
    (nav_ins_ecef test_ins (test_imu 2) (-3) test_r test_v test_q test_stack 1).1 = true ∧
      ms_calls
        (nav_ins_ecef test_ins (test_imu 2) (-3) test_r test_v test_q test_stack 1).2.trace =
          [] ∧
      loads
        (nav_ins_ecef test_ins (test_imu 2) (-3) test_r test_v test_q test_stack 1).2.trace =
          [] ∧
      (∀ idx ∈ accessed
          (nav_ins_ecef test_ins (test_imu 2) (-3) test_r test_v test_q test_stack 1).2.trace,
        0 ≤ idx ∧ idx < (test_imu 2).n) ∧
      ((0 : Int) < -3 →
        (nav_ins_ecef test_ins (test_imu 2) (-3) test_r test_v test_q test_stack 1).2.trace =
          [Event.read 1, Event.read 0]) ∧
      ((-3 : Int) < 0 →
        (((-3 : Int).natAbs : Nat) : Int) - 1 = (test_imu 2).n ∧
          nav_args
            (nav_ins_ecef test_ins (test_imu 2) (-3) test_r test_v test_q
              test_stack 1).2.trace =
            (List.range ((-3 : Int).natAbs - 1)).map (fun i : Nat =>
              (nav_dt (test_imu 2), ((test_imu 2).data i).gryo, ((test_imu 2).data i).accel)) ∧
          (records
            (nav_ins_ecef test_ins (test_imu 2) (-3) test_r test_v test_q
              test_stack 1).2.trace).length = (-3 : Int).natAbs - 1) :=
  short_dataset_no_window test_ins (test_imu 2) (-3) test_r test_v test_q test_stack 1
    (by decide) (by decide) (by decide) (by decide) (by decide) (by decide)

/-! ## C6: termination of the second loop -/

/-- C2 fails on the code. In the dataset whose first two samples are at 0.995 s and
1.005 s (`time = 0, sec = 0.995` and `time = 1, sec = 0.005`), the time difference that
combines both fields is 0.01 s, but `nav_ins_ecef` computes `dt = -0.99` from the `sec`
fields alone and hands that (times `nSample = 1`) to both calls of `nav_equations_ecef`
of the run with `N = 1`, `n = 2`. -/
theorem nav_dt_ignores_whole_seconds :
    timediff_combined ((test_imu_boundary 2).data 1).time ((test_imu_boundary 2).data 0).time =
        1 / 100 ∧
      nav_dt (test_imu_boundary 2) = -(99 / 100) ∧
      (nav_args
        (nav_ins_ecef test_ins (test_imu_boundary 2) 1 test_r test_v test_q
          test_stack 3).2.trace).map Prod.fst = [-(99 / 100), -(99 / 100)] := by
  have hdt : nav_dt (test_imu_boundary 2) = -(99 / 100) := by
    norm_num [nav_dt, test_imu_boundary, test_data_boundary]
  refine ⟨?_, hdt, ?_⟩
  · norm_num [timediff_combined, test_imu_boundary, test_data_boundary]
  · have h := (nav_ins_ecef_run test_ins (test_imu_boundary 2) 1 test_r test_v
      test_q test_stack 3 (by decide) (by decide) (by decide)).2.1
    have hp : prelude_indices 1 = [] := by decide
    have hm : main_indices 1 (test_imu_boundary 2).n = [0, 1] := by decide
    have hs : nSample_of 1 = 1 := by decide
    rw [h, nav_args_run_trace, hdt, hp, hm, hs]
    norm_num

/-! ## C10: the field of `str2num` -/

end Yins
